import Mathlib

/-!
Verification development for the OKX spot/future arbitrage spider core.

This file shallowly embeds the order-book replica, the registry, the
message handler `handle_books`, the work dispatcher `task_dispatch`, and
the cached-book lookup helpers from `data_source/orderbook_manager.py`.

Numeric values from the wire (prices, sizes, contract factors) are
modelled as rationals; timestamps as integers.  Python dicts keyed by
strings are modelled as association lists with in-place overwrite
(`insertStr`), preserving Python's semantics of key update.  The sorted
price-to-size sides of the C order-book structure are modelled as
association lists kept sorted by the side's order (descending for bids,
ascending for asks); `to_list` on such a side is the list itself.
Wall-clock reads (`time.time()`) become explicit parameters.
-/

namespace Spider

/-- Python dict lookup on a string-keyed dict modelled as an assoc list. -/
def lookupStr {α : Type} : List (String × α) → String → Option α
  | [], _ => none
  | (k, v) :: rest, key => if key = k then some v else lookupStr rest key

/-- Python dict assignment `d[k] = v`: overwrite in place, else append. -/
def insertStr {α : Type} : List (String × α) → String → α → List (String × α)
  | [], k, v => [(k, v)]
  | (k0, v0) :: rest, k, v =>
      if k = k0 then (k, v) :: rest else (k0, v0) :: insertStr rest k v

/-- Lookup of a price key in one side of the book (`price in side`,
`side[price]`). -/
def lookupPrice : List (ℚ × ℚ) → ℚ → Option ℚ
  | [], _ => none
  | (q, t) :: rest, p => if p = q then some t else lookupPrice rest p

/-- Sort order of the bid side of the C order book: descending by price. -/
def bidBefore (p q : ℚ) : Bool := decide (q < p)

/-- Sort order of the ask side of the C order book: ascending by price. -/
def askBefore (p q : ℚ) : Bool := decide (p < q)

/-- `side[price] = size` on a sorted side: overwrite the key if present,
otherwise insert at its sorted position. -/
def insertLevel (before : ℚ → ℚ → Bool) (p s : ℚ) : List (ℚ × ℚ) → List (ℚ × ℚ)
  | [] => [(p, s)]
  | (q, t) :: rest =>
      if p = q then (p, s) :: rest
      else if before p q then (p, s) :: (q, t) :: rest
      else (q, t) :: insertLevel before p s rest

/-- `del side[price]`: remove the price key from the side. -/
def eraseLevel (p : ℚ) : List (ℚ × ℚ) → List (ℚ × ℚ)
  | [] => []
  | (q, t) :: rest =>
      if q = p then eraseLevel p rest else (q, t) :: eraseLevel p rest

/-- Assigning a Python dict of levels to a side of the C order book:
the side becomes the sorted map of the dict's entries (later duplicate
keys overwrite earlier ones, as in the dict comprehension that built it). -/
def buildSide (before : ℚ → ℚ → Bool) (levels : List (ℚ × ℚ)) : List (ℚ × ℚ) :=
  levels.foldl (fun side l => insertLevel before l.1 l.2 side) []

/-- Option greeks dict built by `handle_opt_summary`. -/
structure Greeks where
  vega : ℚ
  theta : ℚ
  gamma : ℚ
  delta : ℚ
deriving DecidableEq, Repr

/-- `FastOrderBook` from `data_source/spiders/base_spider.py`: the
per-instrument replica.  `expired_date` is the value of
`get_expired_from_instrument_name(instrument_name)` (a pure function of
the name, supplied as a parameter at construction). -/
structure FastOrderBook where
  instrument_name : String
  expired_date : Option ℚ
  timestamp : Int
  change_id : Option Int
  greeks : Option Greeks
  mark_price : Option ℚ
  mark_iv : Option ℚ
  bid_iv : Option ℚ
  ask_iv : Option ℚ
  bids : List (ℚ × ℚ)
  asks : List (ℚ × ℚ)
  connection_id : Option Int
  max_depth : Option Nat
deriving DecidableEq, Repr

/-- `FastOrderBook.__init__`: arguments in source order, preceded by the
`get_expired_from_instrument_name` function used to fill `expired_date`. -/
def mkFastOrderBook (expiredOf : String → Option ℚ) (instrument_name : String)
    (bids asks : List (ℚ × ℚ)) (change_id : Option Int) (timestamp : Int)
    (greeks : Option Greeks) (mark_price mark_iv bid_iv ask_iv : Option ℚ)
    (connection_id : Option Int) (max_depth : Option Nat) : FastOrderBook :=
  { instrument_name := instrument_name
    expired_date := expiredOf instrument_name
    timestamp := timestamp
    change_id := change_id
    greeks := greeks
    mark_price := mark_price
    mark_iv := mark_iv
    bid_iv := bid_iv
    ask_iv := ask_iv
    bids := buildSide bidBefore bids
    asks := buildSide askBefore asks
    connection_id := connection_id
    max_depth := max_depth }

/-- The dict produced by `FastOrderBook.to_json`. -/
structure BookJson where
  instrument_name : String
  asks : List (ℚ × ℚ)
  bids : List (ℚ × ℚ)
  due_time : ℚ
  data_ms : Int
  msg_ms : Int
  greeks : Option Greeks
  mark_price : Option ℚ
  mark_iv : ℚ
  bid_iv : ℚ
  ask_iv : ℚ
  connection_id : Option Int
deriving DecidableEq, Repr

/-- `FastOrderBook.to_json(level)`.  `level = 0` (the Python default,
falsy) serializes the full stored sides; otherwise the sides are
truncated to `level` entries.  `now_ms` is the wall clock read for
`msg_ms`. -/
def FastOrderBook.to_json (ob : FastOrderBook) (now_ms : Int) (level : Nat) : BookJson :=
  { instrument_name := ob.instrument_name
    asks := if level = 0 then ob.asks else ob.asks.take level
    bids := if level = 0 then ob.bids else ob.bids.take level
    due_time := ob.expired_date.getD 0
    data_ms := ob.timestamp
    msg_ms := now_ms
    greeks := ob.greeks
    mark_price := ob.mark_price
    mark_iv := ob.mark_iv.getD 0
    bid_iv := ob.bid_iv.getD 0
    ask_iv := ob.ask_iv.getD 0
    connection_id := ob.connection_id }

/-- `NewOrderBookManager` from `base_spider.py`.  `connection_id` is the
value of `int(time.time() * 1000)` taken at construction. -/
structure NewOrderBookManager where
  orderbook_max_depth : Option Nat
  orderbooks : List (String × FastOrderBook)
  connection_id : Int
deriving DecidableEq, Repr

/-- `NewOrderBookManager.snapshot`: wholesale-replace the instrument's
replica with a freshly constructed book (ticker annotations reset). -/
def NewOrderBookManager.snapshot (expiredOf : String → Option ℚ)
    (m : NewOrderBookManager) (instrument_name : String)
    (pure_bids pure_asks : List (ℚ × ℚ)) (change_id : Option Int)
    (timestamp : Int) : NewOrderBookManager :=
  { m with orderbooks :=
             insertStr m.orderbooks instrument_name
               (mkFastOrderBook expiredOf instrument_name pure_bids pure_asks
                 change_id timestamp none none none none none
                 (some m.connection_id) m.orderbook_max_depth) }

/-- `NewOrderBookManager.change_ticker`: no-op when the instrument has no
book yet, otherwise overwrite the five ticker annotation fields. -/
def NewOrderBookManager.change_ticker (m : NewOrderBookManager)
    (instrument_name : String) (greeks : Option Greeks)
    (mark_price mark_iv bid_iv ask_iv : Option ℚ) : NewOrderBookManager :=
  match lookupStr m.orderbooks instrument_name with
  | none => m
  | some ob =>
      { m with orderbooks :=
                 insertStr m.orderbooks instrument_name
                   { ob with greeks := greeks, mark_price := mark_price,
                             mark_iv := mark_iv, bid_iv := bid_iv,
                             ask_iv := ask_iv } }

/-- `NewOrderBookManager.get`. -/
def NewOrderBookManager.get (m : NewOrderBookManager) (key : String) :
    Option FastOrderBook :=
  lookupStr m.orderbooks key

/-- A fresh manager (`NewOrderBookManager(orderbook_max_depth=...)`). -/
def emptyManager (orderbook_max_depth : Option Nat) (connection_id : Int) :
    NewOrderBookManager :=
  { orderbook_max_depth := orderbook_max_depth, orderbooks := [],
    connection_id := connection_id }

/-- One entry of the `data` array of a book message: its `ts` and the two
level arrays (each level modelled as its `(price, rawSize)` head; the
trailing deprecated/order-count fields are dropped by the `*_` pattern). -/
structure BookItem where
  ts : Int
  bids : List (ℚ × ℚ)
  asks : List (ℚ × ℚ)
deriving DecidableEq, Repr

/-- A decoded `books`/`books5` message.  `action` is `message["action"]`
when present, else `"snapshot"` (books5 pushes full views only). -/
structure BookMsg where
  instId : String
  action : String
  data : List BookItem
deriving DecidableEq, Repr

/-- Contract scaling entry of `instruments_info[instId]`: `ctMult` and
`ctVal`, `none` for the falsy values that `or 1` replaces. -/
structure InstInfo where
  ctMult : Option ℚ
  ctVal : Option ℚ
deriving DecidableEq, Repr

/-- Ambient state of `OkexWSClient.handle_books` other than the manager:
the cached `instruments_info`, the depth-slice bound
`orderbook_max_depth`, `InstrumentConverter.to_system` and
`get_expired_from_instrument_name` as pure functions. -/
structure BooksCtx where
  instruments_info : List (String × InstInfo)
  orderbook_max_depth : Nat
  toSystem : String → String
  expiredOf : String → Option ℚ

/-- One level of an incremental update applied to one side
(`handle_books`, update branch, inner loop): size scaled by
`contract_size`; scaled size 0 deletes the key if present, otherwise
inserts/overwrites. -/
def applyLevel (before : ℚ → ℚ → Bool) (contract_size : ℚ)
    (side : List (ℚ × ℚ)) (l : ℚ × ℚ) : List (ℚ × ℚ) :=
  let price := l.1
  let amount := l.2 * contract_size
  if amount = 0 then
    if (lookupPrice side price).isSome then eraseLevel price side else side
  else insertLevel before price amount side

/-- All levels of one update applied to one side, in wire order. -/
def applyUpdateSide (before : ℚ → ℚ → Bool) (contract_size : ℚ)
    (levels : List (ℚ × ℚ)) (side : List (ℚ × ℚ)) : List (ℚ × ℚ) :=
  levels.foldl (applyLevel before contract_size) side

/-- One entry of an update message's `data` applied to the replica:
bids side, then asks side, then `orderbook.timestamp = timestamp`. -/
def applyUpdateItem (contract_size : ℚ) (u : BookItem) (ob : FastOrderBook) :
    FastOrderBook :=
  { ob with bids := applyUpdateSide bidBefore contract_size u.bids ob.bids,
            asks := applyUpdateSide askBefore contract_size u.asks ob.asks,
            timestamp := u.ts }

/-- The whole `data` array of an update message, applied in order. -/
def applyItems (contract_size : ℚ) (items : List BookItem)
    (ob : FastOrderBook) : FastOrderBook :=
  items.foldl (fun ob u => applyUpdateItem contract_size u ob) ob

/-- `contract_size = float(ctMult or 1) * float(ctVal or 1)` computed by
`handle_books` from the cached instrument record. -/
def contract_size (info : InstInfo) : ℚ :=
  info.ctMult.getD 1 * info.ctVal.getD 1

/-- One iteration of the snapshot branch of `handle_books`: slice the
top `orderbook_max_depth` levels, scale each raw size by
`contract_size`, and wholesale-replace the replica. -/
def snapshotItem (ctx : BooksCtx) (cs : ℚ) (instrument_name : String)
    (m : NewOrderBookManager) (item : BookItem) : NewOrderBookManager :=
  NewOrderBookManager.snapshot ctx.expiredOf m instrument_name
    ((item.bids.take ctx.orderbook_max_depth).map (fun l => (l.1, l.2 * cs)))
    ((item.asks.take ctx.orderbook_max_depth).map (fun l => (l.1, l.2 * cs)))
    none item.ts

/-- The manager-state effect of `handle_books`: the snapshot branch folds
`snapshotItem` over the message's data; the update branch requires an
existing replica and folds the level updates into it. -/
def handleBooksMgr (ctx : BooksCtx) (mgr : NewOrderBookManager)
    (msg : BookMsg) (info : InstInfo) : Except String NewOrderBookManager :=
  if msg.action = "snapshot" then
    .ok (msg.data.foldl
      (snapshotItem ctx (contract_size info) (ctx.toSystem msg.instId)) mgr)
  else
    match NewOrderBookManager.get mgr (ctx.toSystem msg.instId) with
    | none => .error "TypeError: NoneType is not subscriptable"
    | some ob =>
        .ok { mgr with
              orderbooks :=
                insertStr mgr.orderbooks (ctx.toSystem msg.instId)
                  (applyItems (contract_size info) msg.data ob) }

/-- `OkexWSClient.handle_books`.  Failures that the Python code raises
(KeyError on `instruments_info`, subscripting/attribute access on `None`
when no replica exists) are `Except.error`.  Returns the updated manager
and the published `json_orderbook` payload (its `instrument_name` key is
overwritten with the system name, as in the source). -/
def handleBooks (ctx : BooksCtx) (now_ms : Int) (mgr : NewOrderBookManager)
    (msg : BookMsg) : Except String (NewOrderBookManager × BookJson) :=
  match lookupStr ctx.instruments_info msg.instId with
  | none => .error "KeyError: instruments_info"
  | some info =>
    match handleBooksMgr ctx mgr msg info with
    | .error e => .error e
    | .ok mgrNew =>
      match NewOrderBookManager.get mgrNew (ctx.toSystem msg.instId) with
      | none => .error "AttributeError: NoneType has no to_json"
      | some ob =>
          .ok (mgrNew,
               { ob.to_json now_ms 0 with
                 instrument_name := ctx.toSystem msg.instId })

/-- A sequence of book messages driven through `handle_books` the way the
receive loop does: an exception from one message is caught and logged by
`BaseWSClient.handler`, leaving the manager untouched, and processing
continues with the next message.  Also collects the published payloads. -/
def runBooks (ctx : BooksCtx) (now_ms : Int) :
    List BookMsg → NewOrderBookManager → NewOrderBookManager × List BookJson
  | [], mgr => (mgr, [])
  | msg :: rest, mgr =>
    match handleBooks ctx now_ms mgr msg with
    | .ok r => ((runBooks ctx now_ms rest r.1).1,
                r.2 :: (runBooks ctx now_ms rest r.1).2)
    | .error _ => runBooks ctx now_ms rest mgr

/-- Dispatcher state of `BaseWSClient`.  Queue objects are identified by
their creation index.  `gen_cycle_queue_cache` models the
`itertools.cycle` iterator: the list object it captured together with
the position of the next element to yield. -/
structure DispatchSt where
  queue_object_caches : List Nat
  gen_cycle_queue_cache : Option (List Nat × Nat)
  map_instrument_queue : List (String × Nat)
deriving DecidableEq, Repr

/-- Dispatcher state of a freshly constructed client. -/
def initDispatchSt : DispatchSt :=
  { queue_object_caches := [], gen_cycle_queue_cache := none,
    map_instrument_queue := [] }

/-- `next()` on the `itertools.cycle` iterator state: yield the element
at the current position (modulo the captured list's length) and advance;
`none` models the `StopIteration` a cycle over an empty list raises. -/
def cycleNext (cyc : List Nat × Nat) : Option (Nat × (List Nat × Nat)) :=
  match cyc.1.get? (cyc.2 % cyc.1.length) with
  | none => none
  | some q => some (q, (cyc.1, cyc.2 + 1))

/-- `BaseWSClient.task_dispatch(instrument_name, fut)` for a configured
pool size `W = settings.SPIDER_CONSUMER_WORKERS`.  Returns the queue the
unit of work was put on and the new state; `next` on a cycle over an
empty pool raises `StopIteration`, modelled as `Except.error`.  When no
iterator exists yet, one is created over the current pool
(`cycle(self.queue_object_caches)`, position 0). -/
def task_dispatch (W : Nat) (instrument_name : String) (st : DispatchSt) :
    Except String (Nat × DispatchSt) :=
  match lookupStr st.map_instrument_queue instrument_name with
  | some queue => .ok (queue, st)
  | none =>
    if st.queue_object_caches.length < W then
      .ok (st.queue_object_caches.length,
        { st with queue_object_caches :=
                    st.queue_object_caches ++ [st.queue_object_caches.length],
                  map_instrument_queue :=
                    insertStr st.map_instrument_queue instrument_name
                      st.queue_object_caches.length })
    else
      match cycleNext (st.gen_cycle_queue_cache.getD
          (st.queue_object_caches, 0)) with
      | none => .error "StopIteration"
      | some qc =>
          .ok (qc.1,
            { st with gen_cycle_queue_cache := some qc.2,
                      map_instrument_queue :=
                        insertStr st.map_instrument_queue instrument_name
                          qc.1 })

/-- A sequence of dispatch requests.  A raising request is logged by the
enclosing per-message exception handler and leaves the dispatcher state
unchanged; successful enqueues are recorded as
`(instrument_name, queue)` pairs in order. -/
def runDispatches (W : Nat) :
    List String → DispatchSt → DispatchSt × List (String × Nat)
  | [], st => (st, [])
  | r :: rs, st =>
    match task_dispatch W r st with
    | .ok x => ((runDispatches W rs x.2).1,
                (r, x.1) :: (runDispatches W rs x.2).2)
    | .error _ => runDispatches W rs st

/-- The two side keys accepted by the cached-book lookups
(`Literal["asks", "bids"]`). -/
inductive BookSide
  | asks
  | bids
deriving DecidableEq, Repr

/-- The unpacked cached payload `get_orderbook` returns: the serialized
book's level arrays plus the fields the lookups read. -/
structure CachedBook where
  asks : List (ℚ × ℚ)
  bids : List (ℚ × ℚ)
  expiration_days : Option Int
  data_ms : Int
deriving DecidableEq, Repr

/-- `data[side]`. -/
def CachedBook.side (b : CachedBook) : BookSide → List (ℚ × ℚ)
  | .asks => b.asks
  | .bids => b.bids

/-- Python list indexing `l[i]`, including negative indices;
out-of-range access raises `IndexError`. -/
def pyIndex {α : Type} (l : List α) (i : Int) : Except String α :=
  let j := if i < 0 then i + Int.ofNat l.length else i
  if 0 ≤ j then
    match l.get? j.toNat with
    | some x => .ok x
    | none => .error "IndexError"
  else .error "IndexError"

/-- `OrderBookManager.get_price` from `data_source/orderbook_manager.py`,
applied to the already-fetched cached book:
`float(data[side][depth - 1][0])`. -/
def get_price (book : CachedBook) (side : BookSide) (depth : Int) :
    Except String ℚ := do
  let level ← pyIndex (book.side side) (depth - 1)
  return level.1

/-- The dataclass `OrderBookInfo`. -/
structure OrderBookInfo where
  instrument_name : String
  side : BookSide
  depth : Int
  price : ℚ
  expire_days : Option Int
  data_ms : Int
deriving DecidableEq, Repr

/-- `OrderBookManager.get_orderbook_info`:
`price = float(data[side][depth - 1][0]) if data[side] else 0`. -/
def get_orderbook_info (instrument_name : String) (book : CachedBook)
    (side : BookSide) (depth : Int) : Except String OrderBookInfo :=
  if (book.side side).isEmpty then
    .ok { instrument_name := instrument_name, side := side, depth := depth,
          price := 0, expire_days := book.expiration_days,
          data_ms := book.data_ms }
  else do
    let level ← pyIndex (book.side side) (depth - 1)
    return { instrument_name := instrument_name, side := side, depth := depth,
             price := level.1, expire_days := book.expiration_days,
             data_ms := book.data_ms }

/-- Sorted-side well-formedness: every pair of entries is ordered by the
side's order (bids descending, asks ascending).  Every side the code
builds (`buildSide`) or mutates (`applyLevel`) satisfies this. -/
def SortedSide (before : ℚ → ℚ → Bool) (side : List (ℚ × ℚ)) : Prop :=
  side.Pairwise (fun a b => before a.1 b.1 = true)

/-- A size arises from message `msg` by contract scaling: some wire level
of `msg` carries raw size `r`, and the size equals
`r * contractValue * contractMultiplier` for `msg`'s instrument. -/
def scaledFromMsg (ctx : BooksCtx) (msg : BookMsg) (s : ℚ) : Prop :=
  ∃ info, lookupStr ctx.instruments_info msg.instId = some info ∧
    ∃ item ∈ msg.data, ∃ x : ℚ × ℚ, (x ∈ item.bids ∨ x ∈ item.asks) ∧
      s = x.2 * info.ctVal.getD 1 * info.ctMult.getD 1

/-- A size arises by contract scaling from some message of the trace. -/
def scaledFromTrace (ctx : BooksCtx) (msgs : List BookMsg) (s : ℚ) : Prop :=
  ∃ msg ∈ msgs, scaledFromMsg ctx msg s

/-- All price keys mentioned by a list of update entries, in order. -/
def pricesOf (items : List BookItem) : List ℚ :=
  items.flatMap (fun u => u.bids.map Prod.fst ++ u.asks.map Prod.fst)

/-- Invariant relating the cycle iterator to the queue pool: before the
pool is full the iterator does not exist; once created it captured the
(by then frozen) pool list. -/
def cycleInv (W : Nat) (st : DispatchSt) : Prop :=
  st.gen_cycle_queue_cache = none ∨
    ((∃ i, st.gen_cycle_queue_cache = some (st.queue_object_caches, i)) ∧
      W ≤ st.queue_object_caches.length)

/-! Concrete instances used by witnesses and counterexamples. -/

/-- A concrete handler context: one swap instrument with contract value
10 and multiplier 1. -/
def ctx0 : BooksCtx :=
  { instruments_info := [("Y-SWAP", { ctMult := some 1, ctVal := some 10 })],
    orderbook_max_depth := 5,
    toSystem := fun s => s,
    expiredOf := fun _ => none }

/-- A fresh manager as `setup` builds it. -/
def M0 : NewOrderBookManager := emptyManager (some 5) 77

/-- A snapshot message at timestamp 100. -/
def m1 : BookMsg :=
  { instId := "Y-SWAP", action := "snapshot",
    data := [{ ts := 100, bids := [(100, 1)], asks := [(101, 2)] }] }

/-- An incremental update carrying an older timestamp (50). -/
def m2 : BookMsg :=
  { instId := "Y-SWAP", action := "update",
    data := [{ ts := 50, bids := [(50, 3)], asks := [] }] }

/-- The replica produced by feeding `m1` to a fresh manager. -/
def book1 : FastOrderBook :=
  { instrument_name := "Y-SWAP", expired_date := none, timestamp := 100,
    change_id := none, greeks := none, mark_price := none, mark_iv := none,
    bid_iv := none, ask_iv := none, bids := [(100, 10)], asks := [(101, 20)],
    connection_id := some 77, max_depth := some 5 }

/-- A cached serialized book with a single ask level and no bids. -/
def cb0 : CachedBook :=
  { asks := [(101, 2)], bids := [], expiration_days := none, data_ms := 5 }

/-- Two single-level updates with distinct prices but different
timestamps. -/
def cu1 : BookItem := { ts := 1, bids := [(10, 1)], asks := [] }

/-- See `cu1`. -/
def cu2 : BookItem := { ts := 2, bids := [(20, 1)], asks := [] }

/-! ### Lemmas about side maps -/

theorem lookupPrice_insertLevel (before : ℚ → ℚ → Bool)
    (side : List (ℚ × ℚ)) (p s q : ℚ) :
    lookupPrice (insertLevel before p s side) q =
      if q = p then some s else lookupPrice side q := by
  induction side with
  | nil => simp [insertLevel, lookupPrice]
  | cons hd tl ih =>
    obtain ⟨hp, hs⟩ := hd
    by_cases h1 : p = hp
    · subst h1
      simp only [insertLevel, if_pos rfl, lookupPrice]
      by_cases h3 : q = p <;> simp [h3]
    · simp only [insertLevel, if_neg h1]
      by_cases h2 : before p hp
      · simp only [if_pos h2, lookupPrice]
      · simp only [if_neg h2, lookupPrice]
        by_cases h3 : q = hp
        · subst h3
          rw [if_pos rfl, if_neg (fun hqp : q = p => h1 hqp.symm), if_pos rfl]
        · rw [if_neg h3, if_neg h3, ih]

theorem lookupPrice_eraseLevel (side : List (ℚ × ℚ)) (p q : ℚ) :
    lookupPrice (eraseLevel p side) q =
      if q = p then none else lookupPrice side q := by
  induction side with
  | nil => simp [eraseLevel, lookupPrice]
  | cons hd tl ih =>
    obtain ⟨a, b⟩ := hd
    simp only [eraseLevel]
    by_cases h1 : a = p
    · subst h1
      rw [if_pos rfl, ih]
      simp only [lookupPrice]
      by_cases h3 : q = a <;> simp [h3]
    · rw [if_neg h1]
      simp only [lookupPrice]
      by_cases h3 : q = a
      · subst h3
        rw [if_pos rfl, if_neg h1, if_pos rfl]
      · rw [if_neg h3, ih, if_neg h3]

theorem eraseLevel_of_absent (side : List (ℚ × ℚ)) (p : ℚ)
    (h : ∀ x ∈ side, x.1 ≠ p) : eraseLevel p side = side := by
  induction side with
  | nil => rfl
  | cons hd tl ih =>
    obtain ⟨a, b⟩ := hd
    simp only [eraseLevel]
    rw [if_neg (h (a, b) (by simp))]
    rw [ih (fun x hx => h x (by simp [hx]))]

theorem lookupPrice_none_absent (side : List (ℚ × ℚ)) (p : ℚ)
    (h : lookupPrice side p = none) : ∀ x ∈ side, x.1 ≠ p := by
  induction side with
  | nil => simp
  | cons hd tl ih =>
    intro x hx
    simp only [lookupPrice] at h
    rcases List.mem_cons.1 hx with h1 | h1
    · subst h1
      intro hc
      rw [if_pos hc.symm] at h
      exact Option.noConfusion h
    · by_cases h2 : p = hd.1
      · rw [if_pos h2] at h
        exact Option.noConfusion h
      · rw [if_neg h2] at h
        exact ih h x h1

/-- `applyLevel` as the unconditional canonical operations. -/
theorem applyLevel_eq (before : ℚ → ℚ → Bool) (cs : ℚ)
    (side : List (ℚ × ℚ)) (l : ℚ × ℚ) :
    applyLevel before cs side l =
      if l.2 * cs = 0 then eraseLevel l.1 side
      else insertLevel before l.1 (l.2 * cs) side := by
  unfold applyLevel
  by_cases h : l.2 * cs = 0
  · rw [if_pos h, if_pos h]
    cases hl : lookupPrice side l.1 with
    | none =>
      simp only [hl, Option.isSome_none, Bool.false_eq_true, if_false]
      exact (eraseLevel_of_absent side l.1 (lookupPrice_none_absent side l.1 hl)).symm
    | some v => simp [hl]
  · rw [if_neg h, if_neg h]

/-- Claim C7: zero-size removal.  For every price level applied by the
incremental branch of `handle_books` (`applyLevel`), a scaled size of 0
removes the price key when present and leaves the side unchanged (no
error) when absent; a non-zero scaled size inserts or overwrites the
price-to-size entry, leaving all other keys untouched. -/
theorem claim_C7 (before : ℚ → ℚ → Bool) (cs : ℚ) (side : List (ℚ × ℚ))
    (p raw : ℚ) :
    (raw * cs = 0 →
      (lookupPrice side p = none → applyLevel before cs side (p, raw) = side) ∧
      (lookupPrice (applyLevel before cs side (p, raw)) p = none ∧
        ∀ q, q ≠ p →
          lookupPrice (applyLevel before cs side (p, raw)) q =
            lookupPrice side q)) ∧
    (raw * cs ≠ 0 →
      lookupPrice (applyLevel before cs side (p, raw)) p = some (raw * cs) ∧
      ∀ q, q ≠ p →
        lookupPrice (applyLevel before cs side (p, raw)) q =
          lookupPrice side q) := by
  constructor
  · intro h0
    refine ⟨fun habs => ?_, ?_, fun q hq => ?_⟩
    · unfold applyLevel
      simp [h0, habs]
    · rw [applyLevel_eq, if_pos h0, lookupPrice_eraseLevel, if_pos rfl]
    · rw [applyLevel_eq, if_pos h0, lookupPrice_eraseLevel, if_neg hq]
  · intro h0
    refine ⟨?_, fun q hq => ?_⟩
    · rw [applyLevel_eq, if_neg h0, lookupPrice_insertLevel, if_pos rfl]
    · rw [applyLevel_eq, if_neg h0, lookupPrice_insertLevel, if_neg hq]

/-- Witness for C7 at a concrete side: a zero scaled size deletes price
5 and leaves price 3 alone; a non-zero scaled size overwrites price 3. -/
theorem claim_C7_witness :
    lookupPrice (applyLevel bidBefore 1 [((5 : ℚ), (2 : ℚ)), (3, 1)] (5, 0)) 5 =
        none ∧
    lookupPrice (applyLevel bidBefore 1 [((5 : ℚ), (2 : ℚ)), (3, 1)] (5, 0)) 3 =
        lookupPrice [((5 : ℚ), (2 : ℚ)), (3, 1)] 3 ∧
    lookupPrice (applyLevel bidBefore 1 [((5 : ℚ), (2 : ℚ)), (3, 1)] (3, 4)) 3 =
        some (4 * 1) :=
  ⟨((claim_C7 bidBefore 1 [(5, 2), (3, 1)] 5 0).1 (by norm_num)).2.1,
   ((claim_C7 bidBefore 1 [(5, 2), (3, 1)] 5 0).1 (by norm_num)).2.2 3
     (by norm_num),
   ((claim_C7 bidBefore 1 [(5, 2), (3, 1)] 3 4).2 (by norm_num)).1⟩

/-! ### Lemmas about string-keyed dicts -/

theorem lookupStr_insertStr {α : Type} (m : List (String × α)) (k : String)
    (v : α) (q : String) :
    lookupStr (insertStr m k v) q = if q = k then some v else lookupStr m q := by
  induction m with
  | nil => simp [insertStr, lookupStr]
  | cons hd tl ih =>
    obtain ⟨k0, v0⟩ := hd
    simp only [insertStr]
    by_cases h1 : k = k0
    · subst h1
      simp only [if_pos rfl, lookupStr]
      by_cases h3 : q = k <;> simp [h3]
    · rw [if_neg h1]
      simp only [lookupStr]
      by_cases h3 : q = k0
      · subst h3
        rw [if_pos rfl, if_neg (fun hqk : q = k => h1 hqk.symm), if_pos rfl]
      · rw [if_neg h3, ih, if_neg h3]

theorem insertStr_insertStr_same {α : Type} (m : List (String × α))
    (k : String) (v : α) : insertStr (insertStr m k v) k v = insertStr m k v := by
  induction m with
  | nil => simp [insertStr]
  | cons hd tl ih =>
    obtain ⟨k0, v0⟩ := hd
    simp only [insertStr]
    by_cases h1 : k = k0
    · subst h1
      simp [insertStr]
    · rw [if_neg h1]
      simp only [insertStr, if_neg h1]
      rw [ih]

/-- `NewOrderBookManager.snapshot` leaves the manager's own fields alone. -/
theorem snapshot_fields (expiredOf : String → Option ℚ)
    (m : NewOrderBookManager) (inst : String) (b a : List (ℚ × ℚ))
    (cid : Option Int) (ts : Int) :
    (NewOrderBookManager.snapshot expiredOf m inst b a cid ts).connection_id =
        m.connection_id ∧
    (NewOrderBookManager.snapshot expiredOf m inst b a cid ts).orderbook_max_depth =
        m.orderbook_max_depth := by
  constructor <;> rfl

/-- `NewOrderBookManager.change_ticker` leaves the manager's own fields
alone. -/
theorem change_ticker_fields (m : NewOrderBookManager) (inst : String)
    (g : Option Greeks) (mp mi bi ai : Option ℚ) :
    (m.change_ticker inst g mp mi bi ai).connection_id = m.connection_id ∧
    (m.change_ticker inst g mp mi bi ai).orderbook_max_depth =
        m.orderbook_max_depth := by
  unfold NewOrderBookManager.change_ticker
  cases lookupStr m.orderbooks inst <;> exact ⟨rfl, rfl⟩

/-- Claim C8: snapshot idempotence.  Applying the identical snapshot
twice in succession leaves the manager in the same state as applying it
once, so the serialized (`to_json`) view of the instrument's replica is
identical at every observation time and depth. -/
theorem claim_C8 (expiredOf : String → Option ℚ) (M : NewOrderBookManager)
    (inst : String) (pure_bids pure_asks : List (ℚ × ℚ)) (cid : Option Int)
    (ts : Int) :
    NewOrderBookManager.snapshot expiredOf
        (NewOrderBookManager.snapshot expiredOf M inst pure_bids pure_asks cid ts)
        inst pure_bids pure_asks cid ts =
      NewOrderBookManager.snapshot expiredOf M inst pure_bids pure_asks cid ts ∧
    ∀ now_ms level,
      ((NewOrderBookManager.snapshot expiredOf
          (NewOrderBookManager.snapshot expiredOf M inst pure_bids pure_asks cid ts)
          inst pure_bids pure_asks cid ts).get inst).map
          (fun ob => ob.to_json now_ms level) =
        ((NewOrderBookManager.snapshot expiredOf M inst pure_bids pure_asks cid
            ts).get inst).map (fun ob => ob.to_json now_ms level) := by
  have h : NewOrderBookManager.snapshot expiredOf
      (NewOrderBookManager.snapshot expiredOf M inst pure_bids pure_asks cid ts)
      inst pure_bids pure_asks cid ts =
      NewOrderBookManager.snapshot expiredOf M inst pure_bids pure_asks cid ts := by
    simp only [NewOrderBookManager.snapshot]
    rw [insertStr_insertStr_same]
  exact ⟨h, fun now_ms level => by rw [h]⟩

/-- Claim C10: a snapshot rebuilds the replica from scratch.  Even after
`change_ticker` set ticker annotations, the replica installed by
`snapshot` has all five annotations `None` (so `to_json` reports the
implied-vol fields as 0 and `greeks`/`mark_price` as null), and carries
exactly the snapshot's sides, change id and timestamp, with the
manager's connection id and configured max depth. -/
theorem claim_C10 (expiredOf : String → Option ℚ) (M : NewOrderBookManager)
    (inst : String) (g : Option Greeks) (mp mi bi ai : Option ℚ)
    (pure_bids pure_asks : List (ℚ × ℚ)) (cid : Option Int) (ts : Int) :
    ((NewOrderBookManager.snapshot expiredOf
        (M.change_ticker inst g mp mi bi ai) inst pure_bids pure_asks cid
        ts).get inst) =
      some (mkFastOrderBook expiredOf inst pure_bids pure_asks cid ts none
        none none none none (some M.connection_id) M.orderbook_max_depth) ∧
    (mkFastOrderBook expiredOf inst pure_bids pure_asks cid ts none none none
        none none (some M.connection_id) M.orderbook_max_depth).greeks = none ∧
    (mkFastOrderBook expiredOf inst pure_bids pure_asks cid ts none none none
        none none (some M.connection_id) M.orderbook_max_depth).mark_price =
      none ∧
    (mkFastOrderBook expiredOf inst pure_bids pure_asks cid ts none none none
        none none (some M.connection_id) M.orderbook_max_depth).mark_iv = none ∧
    (mkFastOrderBook expiredOf inst pure_bids pure_asks cid ts none none none
        none none (some M.connection_id) M.orderbook_max_depth).bid_iv = none ∧
    (mkFastOrderBook expiredOf inst pure_bids pure_asks cid ts none none none
        none none (some M.connection_id) M.orderbook_max_depth).ask_iv = none ∧
    (mkFastOrderBook expiredOf inst pure_bids pure_asks cid ts none none none
        none none (some M.connection_id) M.orderbook_max_depth).bids =
      buildSide bidBefore pure_bids ∧
    (mkFastOrderBook expiredOf inst pure_bids pure_asks cid ts none none none
        none none (some M.connection_id) M.orderbook_max_depth).asks =
      buildSide askBefore pure_asks ∧
    (mkFastOrderBook expiredOf inst pure_bids pure_asks cid ts none none none
        none none (some M.connection_id) M.orderbook_max_depth).change_id =
      cid ∧
    (mkFastOrderBook expiredOf inst pure_bids pure_asks cid ts none none none
        none none (some M.connection_id) M.orderbook_max_depth).timestamp = ts ∧
    ∀ now_ms level,
      ((mkFastOrderBook expiredOf inst pure_bids pure_asks cid ts none none
          none none none (some M.connection_id)
          M.orderbook_max_depth).to_json now_ms level).mark_iv = 0 ∧
      ((mkFastOrderBook expiredOf inst pure_bids pure_asks cid ts none none
          none none none (some M.connection_id)
          M.orderbook_max_depth).to_json now_ms level).bid_iv = 0 ∧
      ((mkFastOrderBook expiredOf inst pure_bids pure_asks cid ts none none
          none none none (some M.connection_id)
          M.orderbook_max_depth).to_json now_ms level).ask_iv = 0 ∧
      ((mkFastOrderBook expiredOf inst pure_bids pure_asks cid ts none none
          none none none (some M.connection_id)
          M.orderbook_max_depth).to_json now_ms level).greeks = none ∧
      ((mkFastOrderBook expiredOf inst pure_bids pure_asks cid ts none none
          none none none (some M.connection_id)
          M.orderbook_max_depth).to_json now_ms level).mark_price = none := by
  refine ⟨?_, rfl, rfl, rfl, rfl, rfl, rfl, rfl, rfl, rfl,
    fun now_ms level => ⟨rfl, rfl, rfl, rfl, rfl⟩⟩
  have hc := change_ticker_fields M inst g mp mi bi ai
  simp only [NewOrderBookManager.snapshot, NewOrderBookManager.get]
  rw [lookupStr_insertStr, if_pos rfl, hc.1, hc.2]

/-! ### C5: cached-book depth lookups -/

/-- Counterexample to claim C5 as stated: the depth lookups raise
`IndexError` instead of returning a "no data" result.
`get_orderbook_info` raises when the side is non-empty but the requested
depth (2) exceeds the available levels (1), and `get_price` raises when
the side is empty. -/
theorem claim_C5_counterexample :
    get_orderbook_info "X" cb0 BookSide.asks 2 = .error "IndexError" ∧
    get_price cb0 BookSide.bids 1 = .error "IndexError" := by
  constructor <;> rfl

/-- Claim C5 amended: for depth `N >= 1`, the lookups return the Nth
price of the sorted side while it exists; when the side is empty
`get_orderbook_info` reports price 0 but `get_price` raises
`IndexError`; when the side is non-empty and `N` exceeds the available
levels, both raise `IndexError`. -/
theorem claim_C5 (inst : String) (book : CachedBook) (side : BookSide)
    (depth : Int) (h1 : 1 ≤ depth) :
    (∀ l, (book.side side).get? (depth - 1).toNat = some l →
      get_price book side depth = .ok l.1 ∧
      get_orderbook_info inst book side depth =
        .ok { instrument_name := inst, side := side, depth := depth,
              price := l.1, expire_days := book.expiration_days,
              data_ms := book.data_ms }) ∧
    ((book.side side).length < depth →
      get_price book side depth = .error "IndexError" ∧
      ((book.side side).isEmpty →
        get_orderbook_info inst book side depth =
          .ok { instrument_name := inst, side := side, depth := depth,
                price := 0, expire_days := book.expiration_days,
                data_ms := book.data_ms }) ∧
      (¬(book.side side).isEmpty →
        get_orderbook_info inst book side depth = .error "IndexError")) := by
  have hnneg : ¬(depth - 1 < 0) := by omega
  have hge : (0 : Int) ≤ depth - 1 := by omega
  constructor
  · intro l hl
    have hidx : pyIndex (book.side side) (depth - 1) = .ok l := by
      simp only [pyIndex, if_neg hnneg, if_pos hge, hl]
    have hne : ¬(book.side side).isEmpty := by
      have := List.get?_eq_some.1 hl
      rcases this with ⟨hlt, _⟩
      cases h : book.side side with
      | nil => rw [h] at hlt; simp at hlt
      | cons x xs => simp
    constructor
    · simp only [get_price, hidx]
      rfl
    · simp only [get_orderbook_info, if_neg hne, hidx]
      rfl
  · intro hlen
    have hnone : (book.side side).get? (depth - 1).toNat = none := by
      apply List.get?_eq_none.2
      omega
    have hidx : pyIndex (book.side side) (depth - 1) = .error "IndexError" := by
      simp only [pyIndex, if_neg hnneg, if_pos hge, hnone]
    refine ⟨?_, fun hemp => ?_, fun hne => ?_⟩
    · simp only [get_price, hidx]
      rfl
    · simp only [get_orderbook_info, if_pos hemp]
    · simp only [get_orderbook_info, if_neg hne, hidx]
      rfl

/-- Witness for the amended C5 at the concrete cached book `cb0`. -/
theorem claim_C5_witness :
    get_price cb0 BookSide.asks 1 = .ok ((101 : ℚ), (2 : ℚ)).1 ∧
    get_price cb0 BookSide.bids 1 = .error "IndexError" ∧
    get_orderbook_info "X" cb0 BookSide.bids 1 =
      .ok { instrument_name := "X", side := BookSide.bids, depth := 1,
            price := 0, expire_days := cb0.expiration_days,
            data_ms := cb0.data_ms } :=
  ⟨(((claim_C5 "X" cb0 BookSide.asks 1 (by norm_num)).1) (101, 2)
      (by decide)).1,
   ((claim_C5 "X" cb0 BookSide.bids 1 (by norm_num)).2 (by decide)).1,
   (((claim_C5 "X" cb0 BookSide.bids 1 (by norm_num)).2 (by decide)).2.1
      (by decide))⟩

/-! ### C4: update before any snapshot -/

/-- Counterexample to claim C4 as stated: an incremental update for an
instrument with no replica is not a logged-warning no-op inside
`handle_books` — the handler raises (subscripting `None`).  The
manager's state is indeed left unchanged and nothing is published, but
only because the per-message exception handler catches the raise. -/
theorem claim_C4_counterexample :
    handleBooks ctx0 0 M0 m2 = .error "TypeError: NoneType is not subscriptable" ∧
    runBooks ctx0 0 [m2] M0 = (M0, []) := by
  constructor <;> rfl

/-- Claim C4 amended: applying an incremental update for an instrument
with no replica makes `handle_books` raise; the exception propagates to
the receive loop's per-message handler (which logs it), so the manager's
state is unchanged and nothing is published. -/
theorem claim_C4 (ctx : BooksCtx) (now_ms : Int) (mgr : NewOrderBookManager)
    (msg : BookMsg) (hact : msg.action ≠ "snapshot")
    (hob : mgr.get (ctx.toSystem msg.instId) = none) :
    (∃ e, handleBooks ctx now_ms mgr msg = .error e) ∧
    runBooks ctx now_ms [msg] mgr = (mgr, []) := by
  have herr : ∃ e, handleBooks ctx now_ms mgr msg = .error e := by
    cases hinfo : lookupStr ctx.instruments_info msg.instId with
    | none => exact ⟨"KeyError: instruments_info", by simp [handleBooks, hinfo]⟩
    | some info =>
      refine ⟨"TypeError: NoneType is not subscriptable", ?_⟩
      simp [handleBooks, handleBooksMgr, hinfo, if_neg hact, hob]
  obtain ⟨e, he⟩ := herr
  exact ⟨⟨e, he⟩, by simp [runBooks, he]⟩

/-- Witness for the amended C4: the concrete update `m2` against a fresh
manager raises and leaves the manager unchanged. -/
theorem claim_C4_witness :
    (∃ e, handleBooks ctx0 0 M0 m2 = .error e) ∧
    runBooks ctx0 0 [m2] M0 = (M0, []) :=
  claim_C4 ctx0 0 M0 m2 (by decide) (by rfl)

/-! ### C6: timestamp behaviour -/

theorem applyItems_getLast_ts (cs : ℚ) (items : List BookItem) :
    ∀ (ob : FastOrderBook) (u : BookItem), items.getLast? = some u →
      (applyItems cs items ob).timestamp = u.ts := by
  induction items with
  | nil => intro ob u h; exact Option.noConfusion h
  | cons v vs ih =>
    intro ob u h
    cases vs with
    | nil =>
      simp only [List.getLast?_singleton, Option.some.injEq] at h
      subst h
      rfl
    | cons w ws =>
      rw [List.getLast?_cons_cons] at h
      exact ih (applyUpdateItem cs v ob) u h

/-- Counterexample to claim C6 as stated: the stored timestamp is not
monotonically non-decreasing.  After the snapshot `m1` (timestamp 100)
the older-stamped update `m2` (timestamp 50) is applied and the stored
timestamp drops from 100 to 50. -/
theorem claim_C6_counterexample :
    ((runBooks ctx0 0 [m1] M0).1.get "Y-SWAP").map FastOrderBook.timestamp =
        some 100 ∧
    ((runBooks ctx0 0 [m1, m2] M0).1.get "Y-SWAP").map FastOrderBook.timestamp =
        some 50 ∧
    (50 : Int) < 100 :=
  ⟨rfl, rfl, by norm_num⟩

/-- Claim C6 amended: an incremental update is always applied — even
when its timestamp is older than the replica's — and the stored
timestamp afterwards equals the timestamp of the update's last data
entry (last-writer-wins), so it is not monotone when older-stamped
messages arrive. -/
theorem claim_C6 (ctx : BooksCtx) (now_ms : Int) (mgr : NewOrderBookManager)
    (msg : BookMsg) (info : InstInfo) (ob : FastOrderBook) (u : BookItem)
    (hinfo : lookupStr ctx.instruments_info msg.instId = some info)
    (hact : msg.action ≠ "snapshot")
    (hob : mgr.get (ctx.toSystem msg.instId) = some ob)
    (hlast : msg.data.getLast? = some u) :
    (∃ out, handleBooks ctx now_ms mgr msg =
      .ok ({ mgr with orderbooks :=
                        insertStr mgr.orderbooks (ctx.toSystem msg.instId)
                          (applyItems (info.ctMult.getD 1 * info.ctVal.getD 1)
                            msg.data ob) }, out)) ∧
    (applyItems (info.ctMult.getD 1 * info.ctVal.getD 1) msg.data
        ob).timestamp = u.ts := by
  have hob2 : lookupStr mgr.orderbooks (ctx.toSystem msg.instId) = some ob := hob
  refine ⟨⟨{ (applyItems (info.ctMult.getD 1 * info.ctVal.getD 1) msg.data
               ob).to_json now_ms 0 with
             instrument_name := ctx.toSystem msg.instId }, ?_⟩,
         applyItems_getLast_ts _ _ ob u hlast⟩
  simp only [handleBooks, handleBooksMgr, hinfo, if_neg hact,
    NewOrderBookManager.get, hob2, lookupStr_insertStr, if_pos rfl,
    contract_size]
  simp

/-- Witness for the amended C6: the concrete older-stamped update `m2`
is applied to the replica built by `m1` and the timestamp becomes 50. -/
theorem claim_C6_witness :
    (∃ out, handleBooks ctx0 0 (runBooks ctx0 0 [m1] M0).1 m2 =
      .ok ({ (runBooks ctx0 0 [m1] M0).1 with
              orderbooks :=
                  insertStr (runBooks ctx0 0 [m1] M0).1.orderbooks
                    (ctx0.toSystem m2.instId)
                    (applyItems ((InstInfo.mk (some 1) (some 10)).ctMult.getD 1 *
                        (InstInfo.mk (some 1) (some 10)).ctVal.getD 1) m2.data
                      book1) }, out)) ∧
    (applyItems ((InstInfo.mk (some 1) (some 10)).ctMult.getD 1 *
        (InstInfo.mk (some 1) (some 10)).ctVal.getD 1) m2.data
        book1).timestamp =
      ({ ts := 50, bids := [((50 : ℚ), (3 : ℚ))], asks := [] } : BookItem).ts :=
  claim_C6 ctx0 0 (runBooks ctx0 0 [m1] M0).1 m2 (InstInfo.mk (some 1) (some 10))
    book1 { ts := 50, bids := [(50, 3)], asks := [] } (by rfl) (by decide)
    (by with_unfolding_all rfl) (by rfl)

/-! ### C2, C3: work dispatcher -/

theorem cycleNext_some (cyc : List Nat × Nat) (qc : Nat × (List Nat × Nat))
    (h : cycleNext cyc = some qc) :
    qc.2 = (cyc.1, cyc.2 + 1) ∧ qc.1 ∈ cyc.1 := by
  unfold cycleNext at h
  cases hg : cyc.1.get? (cyc.2 % cyc.1.length) with
  | none => rw [hg] at h; exact Option.noConfusion h
  | some q =>
    rw [hg] at h
    cases h
    exact ⟨rfl, List.get?_mem hg⟩

theorem task_dispatch_keeps_binding (W : Nat) (ins i0 : String) (q : Nat)
    (st : DispatchSt) (h : lookupStr st.map_instrument_queue i0 = some q) :
    ∀ r, task_dispatch W ins st = .ok r →
      lookupStr r.2.map_instrument_queue i0 = some q ∧ (ins = i0 → r.1 = q) := by
  intro r hr
  unfold task_dispatch at hr
  cases hm : lookupStr st.map_instrument_queue ins with
  | some q1 =>
    rw [hm] at hr
    cases hr
    refine ⟨h, fun he => ?_⟩
    subst he
    rw [hm] at h
    exact (Option.some.injEq _ _ ▸ h)
  | none =>
    have hne : ins ≠ i0 := by
      intro he
      subst he
      rw [hm] at h
      exact Option.noConfusion h
    rw [hm] at hr
    by_cases hlen : st.queue_object_caches.length < W
    · rw [if_pos hlen] at hr
      cases hr
      refine ⟨?_, fun he => absurd he hne⟩
      simp only [lookupStr_insertStr, if_neg (fun hh : i0 = ins => hne hh.symm)]
      exact h
    · rw [if_neg hlen] at hr
      cases hg : cycleNext (st.gen_cycle_queue_cache.getD
          (st.queue_object_caches, 0)) with
      | none => rw [hg] at hr; exact Except.noConfusion hr
      | some qc =>
        rw [hg] at hr
        cases hr
        refine ⟨?_, fun he => absurd he hne⟩
        simp only [lookupStr_insertStr, if_neg (fun hh : i0 = ins => hne hh.symm)]
        exact h

/-- Claim C2: sticky queue assignment.  Once an instrument is bound to a
queue in `map_instrument_queue`, any sequence of later dispatches leaves
the binding unchanged, every logged enqueue for that instrument goes to
that queue, and each of its dispatches does enqueue exactly once. -/
theorem claim_C2 (W : Nat) (reqs : List String) (st : DispatchSt)
    (ins : String) (q : Nat)
    (h : lookupStr st.map_instrument_queue ins = some q) :
    lookupStr (runDispatches W reqs st).1.map_instrument_queue ins = some q ∧
    (∀ p ∈ (runDispatches W reqs st).2, p.1 = ins → p.2 = q) ∧
    (runDispatches W reqs st).2.count (ins, q) = reqs.count ins := by
  induction reqs generalizing st with
  | nil => exact ⟨h, by simp [runDispatches], by simp [runDispatches]⟩
  | cons r rs ih =>
    cases hd : task_dispatch W r st with
    | ok x =>
      obtain ⟨hkeep, hsame⟩ := task_dispatch_keeps_binding W r ins q st h x hd
      obtain ⟨ih1, ih2, ih3⟩ := ih x.2 hkeep
      refine ⟨?_, ?_, ?_⟩
      · simpa only [runDispatches, hd] using ih1
      · intro p hp hpi
        simp only [runDispatches, hd] at hp
        rcases List.mem_cons.1 hp with h1 | h1
        · subst h1
          exact hsame hpi
        · exact ih2 p h1 hpi
      · simp only [runDispatches, hd]
        by_cases hri : r = ins
        · subst hri
          rw [hsame rfl]
          simp [List.count_cons, ih3]
        · have hriq : ¬((ins, q) = (r, x.1)) := by
            simp [Prod.ext_iff]
            intro hc
            exact absurd hc.symm hri
          simp [List.count_cons, ih3, hriq, Ne.symm hri]
    | error e =>
      have hri : r ≠ ins := by
        intro he
        subst he
        unfold task_dispatch at hd
        rw [h] at hd
        exact Except.noConfusion hd
      obtain ⟨ih1, ih2, ih3⟩ := ih st h
      refine ⟨by simpa only [runDispatches, hd] using ih1, ?_, ?_⟩
      · intro p hp hpi
        simp only [runDispatches, hd] at hp
        exact ih2 p hp hpi
      · simp only [runDispatches, hd]
        simp [ih3, List.count_cons, Ne.symm hri]

/-- Witness for C2: after "A" is bound to queue 0 under a pool of size
2, dispatching B, A, C keeps A on queue 0 and enqueues A exactly once. -/
theorem claim_C2_witness :
    lookupStr (runDispatches 2 ["B", "A", "C"]
        (runDispatches 2 ["A"] initDispatchSt).1).1.map_instrument_queue "A" =
      some 0 ∧
    (runDispatches 2 ["B", "A", "C"]
        (runDispatches 2 ["A"] initDispatchSt).1).2.count ("A", 0) =
      ["B", "A", "C"].count "A" :=
  ⟨(claim_C2 2 ["B", "A", "C"] (runDispatches 2 ["A"] initDispatchSt).1 "A" 0
      (by decide)).1,
   (claim_C2 2 ["B", "A", "C"] (runDispatches 2 ["A"] initDispatchSt).1 "A" 0
      (by decide)).2.2⟩

theorem task_dispatch_len_le (W : Nat) (ins : String) (st : DispatchSt)
    (hle : st.queue_object_caches.length ≤ W) :
    ∀ r, task_dispatch W ins st = .ok r →
      r.2.queue_object_caches.length ≤ W := by
  intro r hr
  unfold task_dispatch at hr
  cases hm : lookupStr st.map_instrument_queue ins with
  | some q1 =>
    rw [hm] at hr
    cases hr
    exact hle
  | none =>
    rw [hm] at hr
    by_cases hlen : st.queue_object_caches.length < W
    · rw [if_pos hlen] at hr
      cases hr
      simpa using hlen
    · rw [if_neg hlen] at hr
      cases hg : cycleNext (st.gen_cycle_queue_cache.getD
          (st.queue_object_caches, 0)) with
      | none => rw [hg] at hr; exact Except.noConfusion hr
      | some qc =>
        rw [hg] at hr
        cases hr
        exact hle

theorem task_dispatch_cycleInv (W : Nat) (ins : String) (st : DispatchSt)
    (hc : cycleInv W st) :
    ∀ r, task_dispatch W ins st = .ok r → cycleInv W r.2 := by
  intro r hr
  unfold task_dispatch at hr
  cases hm : lookupStr st.map_instrument_queue ins with
  | some q1 =>
    rw [hm] at hr
    cases hr
    exact hc
  | none =>
    rw [hm] at hr
    by_cases hlen : st.queue_object_caches.length < W
    · rw [if_pos hlen] at hr
      cases hr
      rcases hc with hc | ⟨_, hge⟩
      · exact Or.inl hc
      · omega
    · rw [if_neg hlen] at hr
      cases hg : cycleNext (st.gen_cycle_queue_cache.getD
          (st.queue_object_caches, 0)) with
      | none => rw [hg] at hr; exact Except.noConfusion hr
      | some qc =>
        rw [hg] at hr
        cases hr
        obtain ⟨hqc2, _⟩ := cycleNext_some _ _ hg
        rcases hc with hcn | ⟨⟨i, hi⟩, hge⟩
        · refine Or.inr ⟨⟨1, ?_⟩, ?_⟩
          · simp only [hcn, Option.getD_none] at hqc2
            simp [hqc2]
          · show W ≤ st.queue_object_caches.length
            omega
        · refine Or.inr ⟨⟨i + 1, ?_⟩, ?_⟩
          · simp only [hi, Option.getD_some] at hqc2
            simp [hqc2]
          · show W ≤ st.queue_object_caches.length
            omega

theorem runDispatches_inv (W : Nat) (reqs : List String) (st : DispatchSt)
    (hle : st.queue_object_caches.length ≤ W) (hc : cycleInv W st) :
    (runDispatches W reqs st).1.queue_object_caches.length ≤ W ∧
    cycleInv W (runDispatches W reqs st).1 := by
  induction reqs generalizing st with
  | nil => exact ⟨hle, hc⟩
  | cons r rs ih =>
    cases hd : task_dispatch W r st with
    | ok x =>
      have := ih x.2 (task_dispatch_len_le W r st hle x hd)
        (task_dispatch_cycleInv W r st hc x hd)
      simpa only [runDispatches, hd] using this
    | error e =>
      have := ih st hle hc
      simpa only [runDispatches, hd] using this

/-- Claim C3: bounded worker count with round-robin reuse.  Starting
from a fresh client, any request sequence creates at most `W` queues
(and maintains the cycle-capture invariant); and at any state satisfying
that invariant whose pool is full, a dispatch for an unbound instrument
binds it to the next queue of the already-created pool in round-robin
order — the pool itself never grows. -/
theorem claim_C3 (W : Nat) (reqs : List String) (st : DispatchSt)
    (ins : String) :
    (runDispatches W reqs initDispatchSt).1.queue_object_caches.length ≤ W ∧
    cycleInv W (runDispatches W reqs initDispatchSt).1 ∧
    (cycleInv W st → W ≤ st.queue_object_caches.length → 0 < W →
      lookupStr st.map_instrument_queue ins = none →
      ∃ i q,
        st.queue_object_caches.get? (i % st.queue_object_caches.length) =
          some q ∧
        (st.gen_cycle_queue_cache = none ∧ i = 0 ∨
          st.gen_cycle_queue_cache = some (st.queue_object_caches, i)) ∧
        task_dispatch W ins st =
          .ok (q, { st with
                    gen_cycle_queue_cache :=
                      some (st.queue_object_caches, i + 1),
                    map_instrument_queue :=
                      insertStr st.map_instrument_queue ins q }) ∧
        q ∈ st.queue_object_caches) := by
  obtain ⟨hlen, hcyc⟩ := runDispatches_inv W reqs initDispatchSt
    (by simp [initDispatchSt]) (Or.inl rfl)
  refine ⟨hlen, hcyc, fun hc hge hpos hnone => ?_⟩
  have hlenpos : 0 < st.queue_object_caches.length := by omega
  have hnotlt : ¬st.queue_object_caches.length < W := by omega
  rcases hc with hcn | ⟨⟨i, hi⟩, _⟩
  · have hmod : 0 % st.queue_object_caches.length <
        st.queue_object_caches.length := Nat.mod_lt 0 hlenpos
    refine ⟨0, st.queue_object_caches.get ⟨0 % st.queue_object_caches.length,
        hmod⟩, List.get?_eq_get hmod, Or.inl ⟨hcn, rfl⟩, ?_,
        List.get_mem _ _ _⟩
    simp only [task_dispatch, hnone, if_neg hnotlt, hcn, Option.getD_none,
      cycleNext, List.get?_eq_get hmod]
  · have hmod : i % st.queue_object_caches.length <
        st.queue_object_caches.length := Nat.mod_lt i hlenpos
    refine ⟨i, st.queue_object_caches.get ⟨i % st.queue_object_caches.length,
        hmod⟩, List.get?_eq_get hmod, Or.inr hi, ?_,
        List.get_mem _ _ _⟩
    simp only [task_dispatch, hnone, if_neg hnotlt, hi, Option.getD_some,
      cycleNext, List.get?_eq_get hmod]

/-- Witness for C3: with a pool of size 1 already full (instrument A on
queue 0), dispatching the unbound instrument B reuses queue 0 via the
round-robin cycle and creates no new queue. -/
theorem claim_C3_witness :
    (runDispatches 1 ["A", "B", "C"]
        initDispatchSt).1.queue_object_caches.length ≤ 1 ∧
    (∃ i q,
      (runDispatches 1 ["A"] initDispatchSt).1.queue_object_caches.get?
          (i % (runDispatches 1 ["A"]
            initDispatchSt).1.queue_object_caches.length) = some q ∧
      ((runDispatches 1 ["A"] initDispatchSt).1.gen_cycle_queue_cache =
          none ∧ i = 0 ∨
        (runDispatches 1 ["A"] initDispatchSt).1.gen_cycle_queue_cache =
          some ((runDispatches 1 ["A"]
            initDispatchSt).1.queue_object_caches, i)) ∧
      task_dispatch 1 "B" (runDispatches 1 ["A"] initDispatchSt).1 =
        .ok (q, { (runDispatches 1 ["A"] initDispatchSt).1 with
                  gen_cycle_queue_cache :=
                    some ((runDispatches 1 ["A"]
                      initDispatchSt).1.queue_object_caches, i + 1),
                  map_instrument_queue :=
                    insertStr (runDispatches 1 ["A"]
                      initDispatchSt).1.map_instrument_queue "B" q }) ∧
      q ∈ (runDispatches 1 ["A"] initDispatchSt).1.queue_object_caches) :=
  ⟨(claim_C3 1 ["A", "B", "C"] initDispatchSt "B").1,
   (claim_C3 1 ["A", "B", "C"] (runDispatches 1 ["A"] initDispatchSt).1
      "B").2.2 (Or.inl rfl) (by decide) (by decide) (by decide)⟩


/-! ### C1: contract scaling -/

theorem mem_insertLevel (before : ℚ → ℚ → Bool) (p s : ℚ)
    (side : List (ℚ × ℚ)) (l : ℚ × ℚ) (h : l ∈ insertLevel before p s side) :
    l = (p, s) ∨ l ∈ side := by
  induction side with
  | nil =>
    simp only [insertLevel, List.mem_singleton] at h
    exact Or.inl h
  | cons hd tl ih =>
    obtain ⟨hp, hs⟩ := hd
    simp only [insertLevel] at h
    by_cases h1 : p = hp
    · rw [if_pos h1] at h
      rcases List.mem_cons.1 h with h2 | h2
      · exact Or.inl h2
      · exact Or.inr (List.mem_cons_of_mem _ h2)
    · rw [if_neg h1] at h
      by_cases h2 : before p hp
      · rw [if_pos h2] at h
        rcases List.mem_cons.1 h with h3 | h3
        · exact Or.inl h3
        · exact Or.inr h3
      · rw [if_neg h2] at h
        rcases List.mem_cons.1 h with h3 | h3
        · exact Or.inr (h3 ▸ List.mem_cons_self _ _)
        · rcases ih h3 with h4 | h4
          · exact Or.inl h4
          · exact Or.inr (List.mem_cons_of_mem _ h4)

theorem mem_eraseLevel (p : ℚ) (side : List (ℚ × ℚ)) (l : ℚ × ℚ)
    (h : l ∈ eraseLevel p side) : l ∈ side := by
  induction side with
  | nil =>
    simp only [eraseLevel] at h
    exact h
  | cons hd tl ih =>
    obtain ⟨a, b⟩ := hd
    simp only [eraseLevel] at h
    by_cases h1 : a = p
    · rw [if_pos h1] at h
      exact List.mem_cons_of_mem _ (ih h)
    · rw [if_neg h1] at h
      rcases List.mem_cons.1 h with h2 | h2
      · exact h2 ▸ List.mem_cons_self _ _
      · exact List.mem_cons_of_mem _ (ih h2)

theorem mem_applyLevel (before : ℚ → ℚ → Bool) (cs : ℚ)
    (side : List (ℚ × ℚ)) (x l : ℚ × ℚ) (h : l ∈ applyLevel before cs side x) :
    l ∈ side ∨ l = (x.1, x.2 * cs) := by
  rw [applyLevel_eq] at h
  by_cases h0 : x.2 * cs = 0
  · rw [if_pos h0] at h
    exact Or.inl (mem_eraseLevel _ _ _ h)
  · rw [if_neg h0] at h
    rcases mem_insertLevel _ _ _ _ _ h with h1 | h1
    · exact Or.inr h1
    · exact Or.inl h1

theorem mem_applyUpdateSide (before : ℚ → ℚ → Bool) (cs : ℚ)
    (ls : List (ℚ × ℚ)) :
    ∀ (side : List (ℚ × ℚ)) (l : ℚ × ℚ),
      l ∈ applyUpdateSide before cs ls side →
      l ∈ side ∨ ∃ x ∈ ls, l = (x.1, x.2 * cs) := by
  induction ls with
  | nil => intro side l h; exact Or.inl h
  | cons x xs ih =>
    intro side l h
    have h2 : l ∈ applyUpdateSide before cs xs (applyLevel before cs side x) := h
    rcases ih _ _ h2 with h3 | ⟨y, hy, hl⟩
    · rcases mem_applyLevel _ _ _ _ _ h3 with h4 | h4
      · exact Or.inl h4
      · exact Or.inr ⟨x, List.mem_cons_self _ _, h4⟩
    · exact Or.inr ⟨y, List.mem_cons_of_mem _ hy, hl⟩

theorem mem_foldl_insert (before : ℚ → ℚ → Bool) (ls : List (ℚ × ℚ)) :
    ∀ (side0 : List (ℚ × ℚ)) (l : ℚ × ℚ),
      l ∈ ls.foldl (fun side x => insertLevel before x.1 x.2 side) side0 →
      l ∈ side0 ∨ l ∈ ls := by
  induction ls with
  | nil => intro side0 l h; exact Or.inl h
  | cons x xs ih =>
    intro side0 l h
    rcases ih _ _ h with h1 | h1
    · rcases mem_insertLevel _ _ _ _ _ h1 with h2 | h2
      · right
        rw [h2]
        simp
      · exact Or.inl h2
    · exact Or.inr (List.mem_cons_of_mem _ h1)

theorem mem_buildSide (before : ℚ → ℚ → Bool) (ls : List (ℚ × ℚ))
    (l : ℚ × ℚ) (h : l ∈ buildSide before ls) : l ∈ ls := by
  rcases mem_foldl_insert before ls [] l h with h1 | h1
  · simp at h1
  · exact h1

theorem mem_applyItems_bids (cs : ℚ) (items : List BookItem) :
    ∀ (ob : FastOrderBook) (l : ℚ × ℚ), l ∈ (applyItems cs items ob).bids →
      l ∈ ob.bids ∨ ∃ item ∈ items, ∃ x ∈ item.bids, l = (x.1, x.2 * cs) := by
  induction items with
  | nil => intro ob l h; exact Or.inl h
  | cons u us ih =>
    intro ob l h
    have h2 : l ∈ (applyItems cs us (applyUpdateItem cs u ob)).bids := h
    rcases ih _ _ h2 with h3 | ⟨item, hit, x, hx, hl⟩
    · rcases mem_applyUpdateSide _ _ _ _ _ h3 with h4 | ⟨x, hx, hl⟩
      · exact Or.inl h4
      · exact Or.inr ⟨u, List.mem_cons_self _ _, x, hx, hl⟩
    · exact Or.inr ⟨item, List.mem_cons_of_mem _ hit, x, hx, hl⟩

theorem mem_applyItems_asks (cs : ℚ) (items : List BookItem) :
    ∀ (ob : FastOrderBook) (l : ℚ × ℚ), l ∈ (applyItems cs items ob).asks →
      l ∈ ob.asks ∨ ∃ item ∈ items, ∃ x ∈ item.asks, l = (x.1, x.2 * cs) := by
  induction items with
  | nil => intro ob l h; exact Or.inl h
  | cons u us ih =>
    intro ob l h
    have h2 : l ∈ (applyItems cs us (applyUpdateItem cs u ob)).asks := h
    rcases ih _ _ h2 with h3 | ⟨item, hit, x, hx, hl⟩
    · rcases mem_applyUpdateSide _ _ _ _ _ h3 with h4 | ⟨x, hx, hl⟩
      · exact Or.inl h4
      · exact Or.inr ⟨u, List.mem_cons_self _ _, x, hx, hl⟩
    · exact Or.inr ⟨item, List.mem_cons_of_mem _ hit, x, hx, hl⟩

theorem handleBooks_scaled_step (ctx : BooksCtx) (now_ms : Int)
    (msgs : List BookMsg) (msg : BookMsg) (hmsg : msg ∈ msgs)
    (mgr mgr2 : NewOrderBookManager) (out : BookJson)
    (h : handleBooks ctx now_ms mgr msg = .ok (mgr2, out))
    (hm : ∀ inst ob, lookupStr mgr.orderbooks inst = some ob →
      ∀ l : ℚ × ℚ, l ∈ ob.bids ∨ l ∈ ob.asks → scaledFromTrace ctx msgs l.2) :
    (∀ inst ob, lookupStr mgr2.orderbooks inst = some ob →
      ∀ l : ℚ × ℚ, l ∈ ob.bids ∨ l ∈ ob.asks → scaledFromTrace ctx msgs l.2) ∧
    (∀ l : ℚ × ℚ, l ∈ out.bids ∨ l ∈ out.asks →
      scaledFromTrace ctx msgs l.2) := by
  unfold handleBooks at h
  cases hinfo : lookupStr ctx.instruments_info msg.instId with
  | none => rw [hinfo] at h; exact Except.noConfusion h
  | some info =>
    simp only [hinfo] at h
    cases hres : handleBooksMgr ctx mgr msg info with
    | error e => rw [hres] at h; exact Except.noConfusion h
    | ok mgrNew =>
      simp only [hres] at h
      cases hget : NewOrderBookManager.get mgrNew (ctx.toSystem msg.instId) with
      | none =>
        simp only [hget] at h
        exact Except.noConfusion h
      | some ob2 =>
        simp only [hget] at h
        rw [Except.ok.injEq, Prod.mk.injEq] at h
        obtain ⟨hmgr2, hout⟩ := h
        subst hmgr2
        subst hout
        have hInv : ∀ inst ob, lookupStr mgrNew.orderbooks inst = some ob →
            ∀ l : ℚ × ℚ, l ∈ ob.bids ∨ l ∈ ob.asks →
              scaledFromTrace ctx msgs l.2 := by
          unfold handleBooksMgr at hres
          by_cases hact : msg.action = "snapshot"
          · rw [if_pos hact, Except.ok.injEq] at hres
            subst hres
            have Hfold : ∀ (items : List BookItem),
                (∀ y ∈ items, y ∈ msg.data) →
                ∀ (m : NewOrderBookManager),
                (∀ inst ob, lookupStr m.orderbooks inst = some ob →
                  ∀ l : ℚ × ℚ, l ∈ ob.bids ∨ l ∈ ob.asks →
                    scaledFromTrace ctx msgs l.2) →
                ∀ inst ob, lookupStr (items.foldl
                    (snapshotItem ctx (contract_size info)
                      (ctx.toSystem msg.instId)) m).orderbooks inst =
                    some ob →
                ∀ l : ℚ × ℚ, l ∈ ob.bids ∨ l ∈ ob.asks →
                  scaledFromTrace ctx msgs l.2 := by
              intro items
              induction items with
              | nil => intro _ m hmv; exact hmv
              | cons item rest ih =>
                intro hsub m hmv
                refine ih (fun y hy => hsub y (List.mem_cons_of_mem _ hy)) _ ?_
                intro inst ob hlook l hl
                unfold snapshotItem NewOrderBookManager.snapshot at hlook
                simp only [lookupStr_insertStr] at hlook
                by_cases hin : inst = ctx.toSystem msg.instId
                · rw [if_pos hin, Option.some.injEq] at hlook
                  subst hlook
                  rcases hl with hb | ha
                  · have hb2 := mem_buildSide _ _ _ hb
                    obtain ⟨x, hx, hxl⟩ := List.mem_map.1 hb2
                    refine ⟨msg, hmsg, info, hinfo, item,
                      hsub item (List.mem_cons_self _ _), x,
                      Or.inl (List.take_subset _ _ hx), ?_⟩
                    rw [← hxl]
                    show x.2 * contract_size info =
                      x.2 * info.ctVal.getD 1 * info.ctMult.getD 1
                    unfold contract_size
                    ring
                  · have ha2 := mem_buildSide _ _ _ ha
                    obtain ⟨x, hx, hxl⟩ := List.mem_map.1 ha2
                    refine ⟨msg, hmsg, info, hinfo, item,
                      hsub item (List.mem_cons_self _ _), x,
                      Or.inr (List.take_subset _ _ hx), ?_⟩
                    rw [← hxl]
                    show x.2 * contract_size info =
                      x.2 * info.ctVal.getD 1 * info.ctMult.getD 1
                    unfold contract_size
                    ring
                · rw [if_neg hin] at hlook
                  exact hmv inst ob hlook l hl
            exact Hfold msg.data (fun _ hy => hy) mgr hm
          · rw [if_neg hact] at hres
            cases hob : NewOrderBookManager.get mgr (ctx.toSystem msg.instId) with
            | none => rw [hob] at hres; exact Except.noConfusion hres
            | some ob0 =>
              rw [hob] at hres
              rw [Except.ok.injEq] at hres
              subst hres
              intro inst ob hlook l hl
              simp only [lookupStr_insertStr] at hlook
              by_cases hin : inst = ctx.toSystem msg.instId
              · rw [if_pos hin, Option.some.injEq] at hlook
                subst hlook
                rcases hl with hb | ha
                · rcases mem_applyItems_bids _ _ _ _ hb with h4 |
                    ⟨item, hit, x, hx, hxl⟩
                  · exact hm (ctx.toSystem msg.instId) ob0 hob l (Or.inl h4)
                  · refine ⟨msg, hmsg, info, hinfo, item, hit, x,
                      Or.inl hx, ?_⟩
                    rw [hxl]
                    show x.2 * contract_size info =
                      x.2 * info.ctVal.getD 1 * info.ctMult.getD 1
                    unfold contract_size
                    ring
                · rcases mem_applyItems_asks _ _ _ _ ha with h4 |
                    ⟨item, hit, x, hx, hxl⟩
                  · exact hm (ctx.toSystem msg.instId) ob0 hob l (Or.inr h4)
                  · refine ⟨msg, hmsg, info, hinfo, item, hit, x,
                      Or.inr hx, ?_⟩
                    rw [hxl]
                    show x.2 * contract_size info =
                      x.2 * info.ctVal.getD 1 * info.ctMult.getD 1
                    unfold contract_size
                    ring
              · rw [if_neg hin] at hlook
                exact hm inst ob hlook l hl
        refine ⟨hInv, fun l hl => ?_⟩
        apply hInv (ctx.toSystem msg.instId) ob2 hget l
        simp only [FastOrderBook.to_json, if_pos rfl] at hl
        exact hl

theorem runBooks_scaled (ctx : BooksCtx) (now_ms : Int) (msgs : List BookMsg) :
    ∀ (todo : List BookMsg), (∀ x ∈ todo, x ∈ msgs) →
    ∀ (mgr : NewOrderBookManager),
    (∀ inst ob, lookupStr mgr.orderbooks inst = some ob →
      ∀ l : ℚ × ℚ, l ∈ ob.bids ∨ l ∈ ob.asks → scaledFromTrace ctx msgs l.2) →
    (∀ inst ob,
      lookupStr (runBooks ctx now_ms todo mgr).1.orderbooks inst = some ob →
      ∀ l : ℚ × ℚ, l ∈ ob.bids ∨ l ∈ ob.asks → scaledFromTrace ctx msgs l.2) ∧
    (∀ out ∈ (runBooks ctx now_ms todo mgr).2,
      ∀ l : ℚ × ℚ, l ∈ out.bids ∨ l ∈ out.asks →
        scaledFromTrace ctx msgs l.2) := by
  intro todo
  induction todo with
  | nil =>
    intro _ mgr hmv
    exact ⟨hmv, by simp [runBooks]⟩
  | cons msg rest ih =>
    intro hsub mgr hmv
    cases hh : handleBooks ctx now_ms mgr msg with
    | error e =>
      have hrest := ih (fun x hx => hsub x (List.mem_cons_of_mem _ hx)) mgr hmv
      constructor
      · simpa only [runBooks, hh] using hrest.1
      · intro out hout
        simp only [runBooks, hh] at hout
        exact hrest.2 out hout
    | ok r =>
      obtain ⟨hstep1, hstep2⟩ := handleBooks_scaled_step ctx now_ms msgs msg
        (hsub msg (List.mem_cons_self _ _)) mgr r.1 r.2 (by rw [hh]) hmv
      have hrest := ih (fun x hx => hsub x (List.mem_cons_of_mem _ hx)) r.1
        hstep1
      constructor
      · simpa only [runBooks, hh] using hrest.1
      · intro out hout
        simp only [runBooks, hh] at hout
        rcases List.mem_cons.1 hout with h1 | h1
        · subst h1
          exact hstep2
        · exact hrest.2 out h1

/-- Claim C1: contract scaling.  Feeding any trace of book messages
(snapshots and incremental updates) to `handle_books` from a fresh
manager, every size stored in any replica, and every size in any
serialized published payload, equals some wire level's raw size times
the instrument's contract value times its contract multiplier — no raw
unscaled size is ever stored or serialized. -/
theorem claim_C1 (ctx : BooksCtx) (now_ms : Int) (msgs : List BookMsg)
    (d : Option Nat) (cid : Int) :
    (∀ inst ob,
      lookupStr (runBooks ctx now_ms msgs
          (emptyManager d cid)).1.orderbooks inst = some ob →
      ∀ l : ℚ × ℚ, l ∈ ob.bids ∨ l ∈ ob.asks → scaledFromTrace ctx msgs l.2) ∧
    (∀ out ∈ (runBooks ctx now_ms msgs (emptyManager d cid)).2,
      ∀ l : ℚ × ℚ, l ∈ out.bids ∨ l ∈ out.asks →
        scaledFromTrace ctx msgs l.2) :=
  runBooks_scaled ctx now_ms msgs msgs (fun _ hx => hx) (emptyManager d cid)
    (fun _ _ hob => Option.noConfusion hob)

/-- Witness for C1: the size 10 stored for the snapshot `m1` (raw size
1, contract value 10, multiplier 1) is contract-scaled. -/
theorem claim_C1_witness : scaledFromTrace ctx0 [m1] 10 :=
  (claim_C1 ctx0 0 [m1] (some 5) 77).1 "Y-SWAP" book1
    (by with_unfolding_all rfl) (100, 10) (Or.inl (by decide))

/-! ### C9: commutation of distinct-price updates -/

theorem bidBefore_flip (a b : ℚ) (h : a ≠ b) : bidBefore a b = !bidBefore b a := by
  unfold bidBefore
  by_cases hab : b < a
  · have hba : ¬a < b := lt_asymm hab
    simp [hab, hba]
  · have hba : a < b := lt_of_le_of_ne (le_of_not_lt hab) h
    simp [hab, hba]

theorem bidBefore_irr (a : ℚ) : bidBefore a a = false := by
  simp [bidBefore]

theorem bidBefore_trans (a b c : ℚ) (h1 : bidBefore a b = true)
    (h2 : bidBefore b c = true) : bidBefore a c = true := by
  simp only [bidBefore, decide_eq_true_eq] at h1 h2 ⊢
  exact lt_trans h2 h1

theorem askBefore_flip (a b : ℚ) (h : a ≠ b) : askBefore a b = !askBefore b a := by
  unfold askBefore
  by_cases hab : a < b
  · have hba : ¬b < a := lt_asymm hab
    simp [hab, hba]
  · have hba : b < a := lt_of_le_of_ne (le_of_not_lt hab) (Ne.symm h)
    simp [hab, hba]

theorem askBefore_irr (a : ℚ) : askBefore a a = false := by
  simp [askBefore]

theorem askBefore_trans (a b c : ℚ) (h1 : askBefore a b = true)
    (h2 : askBefore b c = true) : askBefore a c = true := by
  simp only [askBefore, decide_eq_true_eq] at h1 h2 ⊢
  exact lt_trans h1 h2

theorem before_flip_false (before : ℚ → ℚ → Bool)
    (hflip : ∀ a b : ℚ, a ≠ b → before a b = !before b a) (a b : ℚ)
    (hne : a ≠ b) (h : before a b = true) : before b a = false := by
  have hf := hflip b a (Ne.symm hne)
  rw [hf, h]
  rfl

theorem before_flip_true (before : ℚ → ℚ → Bool)
    (hflip : ∀ a b : ℚ, a ≠ b → before a b = !before b a) (a b : ℚ)
    (hne : a ≠ b) (h : before a b = false) : before b a = true := by
  have hf := hflip b a (Ne.symm hne)
  rw [hf, h]
  rfl

theorem insertLevel_comm (before : ℚ → ℚ → Bool)
    (hflip : ∀ a b : ℚ, a ≠ b → before a b = !before b a)
    (htrans : ∀ a b c : ℚ, before a b = true → before b c = true →
      before a c = true)
    (p1 s1 p2 s2 : ℚ) (hne : p1 ≠ p2) :
    ∀ side, insertLevel before p1 s1 (insertLevel before p2 s2 side) =
      insertLevel before p2 s2 (insertLevel before p1 s1 side) := by
  intro side
  induction side with
  | nil =>
    by_cases h12 : before p1 p2
    · have h21 := before_flip_false before hflip p1 p2 hne h12
      simp [insertLevel, hne, Ne.symm hne, h12, h21]
    · have h21 := before_flip_true before hflip p1 p2 hne
        (Bool.eq_false_iff.2 h12)
      simp [insertLevel, hne, Ne.symm hne, h12, h21]
  | cons hd tl ih =>
    obtain ⟨q, t⟩ := hd
    by_cases h1q : p1 = q
    · subst h1q
      by_cases h2b : before p2 p1
      · have h12 := before_flip_false before hflip p2 p1 (Ne.symm hne) h2b
        simp [insertLevel, hne, Ne.symm hne, h2b, h12]
      · simp [insertLevel, hne, Ne.symm hne, h2b]
    · by_cases h2q : p2 = q
      · subst h2q
        by_cases h1b : before p1 p2
        · have h21 := before_flip_false before hflip p1 p2 hne h1b
          simp [insertLevel, hne, Ne.symm hne, h1b, h21]
        · simp [insertLevel, hne, Ne.symm hne, h1b]
      · by_cases h1b : before p1 q
        · by_cases h2b : before p2 q
          · by_cases h12 : before p1 p2
            · have h21 := before_flip_false before hflip p1 p2 hne h12
              simp [insertLevel, h1q, h2q, h1b, h2b, hne, Ne.symm hne, h12,
                h21]
            · have h21 := before_flip_true before hflip p1 p2 hne
                (Bool.eq_false_iff.2 h12)
              simp [insertLevel, h1q, h2q, h1b, h2b, hne, Ne.symm hne, h12,
                h21]
          · have h21 : before p2 p1 = false := by
              cases hb : before p2 p1 with
              | false => rfl
              | true => exact absurd (htrans p2 p1 q hb h1b) (by simp [h2b])
            have h12 := before_flip_true before hflip p2 p1 (Ne.symm hne) h21
            simp [insertLevel, h1q, h2q, h1b, h2b, hne, Ne.symm hne, h12, h21]
        · by_cases h2b : before p2 q
          · have h12 : before p1 p2 = false := by
              cases hb : before p1 p2 with
              | false => rfl
              | true => exact absurd (htrans p1 p2 q hb h2b) (by simp [h1b])
            have h21 := before_flip_true before hflip p1 p2 hne h12
            simp [insertLevel, h1q, h2q, h1b, h2b, hne, Ne.symm hne, h12, h21]
          · simp only [insertLevel, if_neg h2q, if_neg h2b, if_neg h1q,
              if_neg h1b]
            rw [ih]

theorem eraseLevel_eraseLevel_comm (p1 p2 : ℚ) :
    ∀ side, eraseLevel p1 (eraseLevel p2 side) =
      eraseLevel p2 (eraseLevel p1 side) := by
  intro side
  induction side with
  | nil => rfl
  | cons hd tl ih =>
    obtain ⟨q, t⟩ := hd
    by_cases h1 : q = p1
    · subst h1
      by_cases h2 : q = p2
      · subst h2
        simp [eraseLevel, ih]
      · simp [eraseLevel, h2, ih]
    · by_cases h2 : q = p2
      · subst h2
        simp [eraseLevel, h1, ih]
      · simp [eraseLevel, h1, h2, ih]

theorem insertLevel_front (before : ℚ → ℚ → Bool)
    (hirr : ∀ a : ℚ, before a a = false) (p s : ℚ) (side : List (ℚ × ℚ))
    (hall : ∀ x ∈ side, before p x.1 = true) :
    insertLevel before p s side = (p, s) :: side := by
  cases side with
  | nil => rfl
  | cons hd tl =>
    obtain ⟨q, t⟩ := hd
    have hpq : before p q = true := hall (q, t) (List.mem_cons_self _ _)
    have hne : p ≠ q := by
      intro h
      rw [h, hirr] at hpq
      exact Bool.noConfusion hpq
    simp [insertLevel, hne, hpq]

theorem eraseLevel_insertLevel_comm (before : ℚ → ℚ → Bool)
    (hirr : ∀ a : ℚ, before a a = false)
    (htrans : ∀ a b c : ℚ, before a b = true → before b c = true →
      before a c = true)
    (p1 s1 p2 : ℚ) (hne : p1 ≠ p2) :
    ∀ side, SortedSide before side →
      eraseLevel p2 (insertLevel before p1 s1 side) =
        insertLevel before p1 s1 (eraseLevel p2 side) := by
  intro side
  induction side with
  | nil => simp [insertLevel, eraseLevel, hne]
  | cons hd tl ih =>
    intro hs
    obtain ⟨q, t⟩ := hd
    rw [SortedSide, List.pairwise_cons] at hs
    obtain ⟨hq, hst⟩ := hs
    have habs : q = p2 → ∀ x ∈ tl, x.1 ≠ p2 := by
      intro hqp x hx hxp
      have hb := hq x hx
      rw [hqp, hxp, hirr] at hb
      exact Bool.noConfusion hb
    by_cases h1q : p1 = q
    · have hq2 : ¬q = p2 := by
        rw [← h1q]
        exact hne
      simp [insertLevel, eraseLevel, h1q, hne, hq2]
    · by_cases h1b : before p1 q
      · by_cases h2q : q = p2
        · have htl : eraseLevel p2 tl = tl :=
            eraseLevel_of_absent tl p2 (habs h2q)
          have hfront : insertLevel before p1 s1 tl = (p1, s1) :: tl := by
            apply insertLevel_front before hirr
            intro x hx
            exact htrans p1 q x.1 h1b (hq x hx)
          have h1b2 : before p1 p2 = true := h2q ▸ h1b
          simp [insertLevel, eraseLevel, hne, h1q, h1b, h2q, htl, hfront,
            h1b2]
        · simp [insertLevel, eraseLevel, hne, h1q, h1b, h2q]
      · by_cases h2q : q = p2
        · have htl : eraseLevel p2 tl = tl :=
            eraseLevel_of_absent tl p2 (habs h2q)
          have h1b2 : before p1 p2 = false :=
            h2q ▸ (Bool.eq_false_iff.mpr h1b)
          simp [insertLevel, eraseLevel, hne, h1q, h1b, h2q, ih hst, htl,
            h1b2]
        · simp [insertLevel, eraseLevel, hne, h1q, h1b, h2q, ih hst]

theorem applyLevel_comm (before : ℚ → ℚ → Bool)
    (hflip : ∀ a b : ℚ, a ≠ b → before a b = !before b a)
    (hirr : ∀ a : ℚ, before a a = false)
    (htrans : ∀ a b c : ℚ, before a b = true → before b c = true →
      before a c = true)
    (cs : ℚ) (x y : ℚ × ℚ) (hne : x.1 ≠ y.1) (side : List (ℚ × ℚ))
    (hs : SortedSide before side) :
    applyLevel before cs (applyLevel before cs side x) y =
      applyLevel before cs (applyLevel before cs side y) x := by
  rw [applyLevel_eq, applyLevel_eq, applyLevel_eq, applyLevel_eq]
  by_cases hx0 : x.2 * cs = 0 <;> by_cases hy0 : y.2 * cs = 0
  · simp only [if_pos hx0, if_pos hy0]
    exact eraseLevel_eraseLevel_comm y.1 x.1 side
  · simp only [if_pos hx0, if_neg hy0]
    exact (eraseLevel_insertLevel_comm before hirr htrans y.1 (y.2 * cs) x.1
      (Ne.symm hne) side hs).symm
  · simp only [if_neg hx0, if_pos hy0]
    exact eraseLevel_insertLevel_comm before hirr htrans x.1 (x.2 * cs) y.1
      hne side hs
  · simp only [if_neg hx0, if_neg hy0]
    exact insertLevel_comm before hflip htrans y.1 (y.2 * cs) x.1 (x.2 * cs)
      (Ne.symm hne) side

theorem sortedSide_insertLevel (before : ℚ → ℚ → Bool)
    (hflip : ∀ a b : ℚ, a ≠ b → before a b = !before b a)
    (htrans : ∀ a b c : ℚ, before a b = true → before b c = true →
      before a c = true)
    (p s : ℚ) :
    ∀ side, SortedSide before side →
      SortedSide before (insertLevel before p s side) := by
  intro side
  induction side with
  | nil => intro _; simp [insertLevel, SortedSide]
  | cons hd tl ih =>
    intro hs
    obtain ⟨q, t⟩ := hd
    rw [SortedSide, List.pairwise_cons] at hs
    obtain ⟨hq, hst⟩ := hs
    by_cases h1 : p = q
    · simp only [insertLevel, if_pos h1]
      rw [SortedSide, List.pairwise_cons]
      refine ⟨fun x hx => ?_, hst⟩
      have := hq x hx
      simpa [h1] using this
    · by_cases h2 : before p q
      · simp only [insertLevel, if_neg h1, if_pos h2]
        rw [SortedSide, List.pairwise_cons]
        constructor
        · intro x hx
          rcases List.mem_cons.1 hx with h3 | h3
          · rw [h3]
            exact h2
          · exact htrans p q x.1 h2 (hq x h3)
        · exact List.pairwise_cons.2 ⟨hq, hst⟩
      · simp only [insertLevel, if_neg h1, if_neg h2]
        rw [SortedSide, List.pairwise_cons]
        refine ⟨?_, ih hst⟩
        intro x hx
        rcases mem_insertLevel _ _ _ _ _ hx with h3 | h3
        · rw [h3]
          exact before_flip_true before hflip p q h1 (Bool.eq_false_iff.2 h2)
        · exact hq x h3

theorem eraseLevel_sublist (p : ℚ) :
    ∀ side : List (ℚ × ℚ), (eraseLevel p side).Sublist side := by
  intro side
  induction side with
  | nil => exact List.Sublist.refl _
  | cons hd tl ih =>
    obtain ⟨q, t⟩ := hd
    by_cases h : q = p
    · simp only [eraseLevel, if_pos h]
      exact ih.cons _
    · simp only [eraseLevel, if_neg h]
      exact ih.cons₂ _

theorem sortedSide_applyLevel (before : ℚ → ℚ → Bool)
    (hflip : ∀ a b : ℚ, a ≠ b → before a b = !before b a)
    (htrans : ∀ a b c : ℚ, before a b = true → before b c = true →
      before a c = true)
    (cs : ℚ) (x : ℚ × ℚ) (side : List (ℚ × ℚ)) (hs : SortedSide before side) :
    SortedSide before (applyLevel before cs side x) := by
  rw [applyLevel_eq]
  by_cases h0 : x.2 * cs = 0
  · rw [if_pos h0]
    exact List.Pairwise.sublist (eraseLevel_sublist x.1 side) hs
  · rw [if_neg h0]
    exact sortedSide_insertLevel before hflip htrans x.1 (x.2 * cs) side hs

theorem sortedSide_applyUpdateSide (before : ℚ → ℚ → Bool)
    (hflip : ∀ a b : ℚ, a ≠ b → before a b = !before b a)
    (htrans : ∀ a b c : ℚ, before a b = true → before b c = true →
      before a c = true)
    (cs : ℚ) :
    ∀ (ls : List (ℚ × ℚ)) (side : List (ℚ × ℚ)), SortedSide before side →
      SortedSide before (applyUpdateSide before cs ls side) := by
  intro ls
  induction ls with
  | nil => intro side hs; exact hs
  | cons x xs ih =>
    intro side hs
    exact ih (applyLevel before cs side x)
      (sortedSide_applyLevel before hflip htrans cs x side hs)

theorem applyUpdateSide_perm (before : ℚ → ℚ → Bool)
    (hflip : ∀ a b : ℚ, a ≠ b → before a b = !before b a)
    (hirr : ∀ a : ℚ, before a a = false)
    (htrans : ∀ a b c : ℚ, before a b = true → before b c = true →
      before a c = true)
    (cs : ℚ) :
    ∀ {ls1 ls2 : List (ℚ × ℚ)}, ls1.Perm ls2 →
      (ls1.map Prod.fst).Pairwise (fun a b : ℚ => a ≠ b) →
      ∀ side, SortedSide before side →
        applyUpdateSide before cs ls1 side =
          applyUpdateSide before cs ls2 side := by
  intro ls1 ls2 hperm
  induction hperm with
  | nil => intro _ _ _; rfl
  | @cons x w1 w2 h ih =>
    intro hpw side hs
    simp only [List.map_cons] at hpw
    exact ih (List.pairwise_cons.1 hpw).2 (applyLevel before cs side x)
      (sortedSide_applyLevel before hflip htrans cs x side hs)
  | swap x y l =>
    intro hpw side hs
    have hxy : y.1 ≠ x.1 := by
      simp only [List.map_cons] at hpw
      exact (List.pairwise_cons.1 hpw).1 x.1 (by simp)
    show applyUpdateSide before cs l
        (applyLevel before cs (applyLevel before cs side y) x) =
      applyUpdateSide before cs l
        (applyLevel before cs (applyLevel before cs side x) y)
    rw [applyLevel_comm before hflip hirr htrans cs y x hxy side hs]
  | trans h1 h2 ih1 ih2 =>
    intro hpw side hs
    have hpw2 := (List.Perm.pairwise_iff (fun hab => hab.symm)
      (h1.map Prod.fst)).1 hpw
    exact (ih1 hpw side hs).trans (ih2 hpw2 side hs)

theorem applyItems_bids_flat (cs : ℚ) :
    ∀ (items : List BookItem) (ob : FastOrderBook),
      (applyItems cs items ob).bids =
        applyUpdateSide bidBefore cs (items.flatMap (fun u => u.bids))
          ob.bids := by
  intro items
  induction items with
  | nil => intro ob; rfl
  | cons u us ih =>
    intro ob
    have e : applyItems cs (u :: us) ob =
        applyItems cs us (applyUpdateItem cs u ob) := rfl
    rw [e, ih]
    show applyUpdateSide bidBefore cs (us.flatMap (fun v => v.bids))
        (applyUpdateSide bidBefore cs u.bids ob.bids) =
      applyUpdateSide bidBefore cs ((u :: us).flatMap (fun v => v.bids))
        ob.bids
    simp only [applyUpdateSide, List.flatMap_cons, List.foldl_append]

theorem applyItems_asks_flat (cs : ℚ) :
    ∀ (items : List BookItem) (ob : FastOrderBook),
      (applyItems cs items ob).asks =
        applyUpdateSide askBefore cs (items.flatMap (fun u => u.asks))
          ob.asks := by
  intro items
  induction items with
  | nil => intro ob; rfl
  | cons u us ih =>
    intro ob
    have e : applyItems cs (u :: us) ob =
        applyItems cs us (applyUpdateItem cs u ob) := rfl
    rw [e, ih]
    show applyUpdateSide askBefore cs (us.flatMap (fun v => v.asks))
        (applyUpdateSide askBefore cs u.asks ob.asks) =
      applyUpdateSide askBefore cs ((u :: us).flatMap (fun v => v.asks))
        ob.asks
    simp only [applyUpdateSide, List.flatMap_cons, List.foldl_append]

theorem applyItems_frame (cs : ℚ) (items : List BookItem) :
    ∀ ob : FastOrderBook,
      (applyItems cs items ob).instrument_name = ob.instrument_name ∧
      (applyItems cs items ob).expired_date = ob.expired_date ∧
      (applyItems cs items ob).change_id = ob.change_id ∧
      (applyItems cs items ob).greeks = ob.greeks ∧
      (applyItems cs items ob).mark_price = ob.mark_price ∧
      (applyItems cs items ob).mark_iv = ob.mark_iv ∧
      (applyItems cs items ob).bid_iv = ob.bid_iv ∧
      (applyItems cs items ob).ask_iv = ob.ask_iv ∧
      (applyItems cs items ob).connection_id = ob.connection_id ∧
      (applyItems cs items ob).max_depth = ob.max_depth := by
  induction items with
  | nil =>
    intro ob
    exact ⟨rfl, rfl, rfl, rfl, rfl, rfl, rfl, rfl, rfl, rfl⟩
  | cons u us ih =>
    intro ob
    exact ih (applyUpdateItem cs u ob)

theorem FastOrderBook.extEq (x y : FastOrderBook)
    (h1 : x.instrument_name = y.instrument_name)
    (h2 : x.expired_date = y.expired_date)
    (h3 : x.timestamp = y.timestamp)
    (h4 : x.change_id = y.change_id)
    (h5 : x.greeks = y.greeks)
    (h6 : x.mark_price = y.mark_price)
    (h7 : x.mark_iv = y.mark_iv)
    (h8 : x.bid_iv = y.bid_iv)
    (h9 : x.ask_iv = y.ask_iv)
    (h10 : x.bids = y.bids)
    (h11 : x.asks = y.asks)
    (h12 : x.connection_id = y.connection_id)
    (h13 : x.max_depth = y.max_depth) : x = y := by
  cases x
  cases y
  simp only [FastOrderBook.mk.injEq]
  exact ⟨h1, h2, h3, h4, h5, h6, h7, h8, h9, h10, h11, h12, h13⟩

theorem flatMap_sublist {α β : Type} (f g : α → List β)
    (h : ∀ x, (f x).Sublist (g x)) :
    ∀ l : List α, (l.flatMap f).Sublist (l.flatMap g) := by
  intro l
  induction l with
  | nil => exact List.Sublist.refl _
  | cons x xs ih =>
    simp only [List.flatMap_cons]
    exact List.Sublist.append (h x) ih

/-- Counterexample to claim C9 as stated: two incremental updates with
pairwise-distinct prices but different timestamps do not commute as full
replica states — the timestamp field records the last-applied update's
`ts`, so the two orders end with different timestamps. -/
theorem claim_C9_counterexample :
    [cu1, cu2].Perm [cu2, cu1] ∧
    (pricesOf [cu1, cu2]).Pairwise (fun a b : ℚ => a ≠ b) ∧
    applyItems 1 [cu1, cu2] book1 ≠ applyItems 1 [cu2, cu1] book1 :=
  ⟨List.Perm.swap cu2 cu1 [], by decide, by with_unfolding_all decide⟩

/-- Claim C9 amended: applying a set of incremental updates with
pairwise-distinct price keys in any order yields the same bid map and
the same ask map; the full replica state (including the auxiliary
timestamp field) coincides additionally whenever the permuted updates
all carry the same timestamp, since the timestamp records the
last-applied update's `ts`. -/
theorem claim_C9 (cs : ℚ) (l1 l2 : List BookItem) (ob : FastOrderBook)
    (hperm : l1.Perm l2)
    (hpw : (pricesOf l1).Pairwise (fun a b : ℚ => a ≠ b))
    (hbs : SortedSide bidBefore ob.bids)
    (has : SortedSide askBefore ob.asks) :
    (applyItems cs l1 ob).bids = (applyItems cs l2 ob).bids ∧
    (applyItems cs l1 ob).asks = (applyItems cs l2 ob).asks ∧
    ∀ t : Int, (∀ u ∈ l1, u.ts = t) →
      applyItems cs l1 ob = applyItems cs l2 ob := by
  have hflatB : ((l1.flatMap (fun u => u.bids)).map Prod.fst).Pairwise
      (fun a b : ℚ => a ≠ b) := by
    rw [List.map_flatMap]
    refine List.Pairwise.sublist ?_ hpw
    exact flatMap_sublist _ _ (fun u => List.sublist_append_left _ _) l1
  have hflatA : ((l1.flatMap (fun u => u.asks)).map Prod.fst).Pairwise
      (fun a b : ℚ => a ≠ b) := by
    rw [List.map_flatMap]
    refine List.Pairwise.sublist ?_ hpw
    exact flatMap_sublist _ _ (fun u => List.sublist_append_right _ _) l1
  have hb : (applyItems cs l1 ob).bids = (applyItems cs l2 ob).bids := by
    rw [applyItems_bids_flat, applyItems_bids_flat]
    exact applyUpdateSide_perm bidBefore bidBefore_flip bidBefore_irr
      bidBefore_trans cs (hperm.flatMap_right _) hflatB ob.bids hbs
  have ha : (applyItems cs l1 ob).asks = (applyItems cs l2 ob).asks := by
    rw [applyItems_asks_flat, applyItems_asks_flat]
    exact applyUpdateSide_perm askBefore askBefore_flip askBefore_irr
      askBefore_trans cs (hperm.flatMap_right _) hflatA ob.asks has
  refine ⟨hb, ha, fun t ht => ?_⟩
  by_cases hnil : l1 = []
  · subst hnil
    rw [hperm.symm.eq_nil]
  · have hnil2 : l2 ≠ [] := by
      intro h
      subst h
      exact hnil hperm.eq_nil
    obtain ⟨u1, hu1⟩ : ∃ a, l1.getLast? = some a :=
      Option.isSome_iff_exists.1 (List.getLast?_isSome.2 hnil)
    obtain ⟨u2, hu2⟩ : ∃ a, l2.getLast? = some a :=
      Option.isSome_iff_exists.1 (List.getLast?_isSome.2 hnil2)
    have ht1 : (applyItems cs l1 ob).timestamp = t := by
      rw [applyItems_getLast_ts cs l1 ob u1 hu1]
      exact ht u1 (List.mem_of_mem_getLast? (Option.mem_def.mpr hu1))
    have ht2 : (applyItems cs l2 ob).timestamp = t := by
      rw [applyItems_getLast_ts cs l2 ob u2 hu2]
      exact ht u2 (hperm.mem_iff.2
        (List.mem_of_mem_getLast? (Option.mem_def.mpr hu2)))
    obtain ⟨f1a, f1b, f1c, f1d, f1e, f1f, f1g, f1h, f1i, f1j⟩ :=
      applyItems_frame cs l1 ob
    obtain ⟨f2a, f2b, f2c, f2d, f2e, f2f, f2g, f2h, f2i, f2j⟩ :=
      applyItems_frame cs l2 ob
    exact FastOrderBook.extEq _ _ (f1a.trans f2a.symm) (f1b.trans f2b.symm)
      (ht1.trans ht2.symm) (f1c.trans f2c.symm) (f1d.trans f2d.symm)
      (f1e.trans f2e.symm) (f1f.trans f2f.symm) (f1g.trans f2g.symm)
      (f1h.trans f2h.symm) hb ha (f1i.trans f2i.symm) (f1j.trans f2j.symm)

/-- Witness for the amended C9 at the concrete updates `cu1`, `cu2`. -/
theorem claim_C9_witness :
    (applyItems 1 [cu1, cu2] book1).bids =
      (applyItems 1 [cu2, cu1] book1).bids ∧
    (applyItems 1 [cu1, cu2] book1).asks =
      (applyItems 1 [cu2, cu1] book1).asks :=
  ⟨(claim_C9 1 [cu1, cu2] [cu2, cu1] book1 (List.Perm.swap cu2 cu1 [])
      (by decide) (by unfold SortedSide; decide)
      (by unfold SortedSide; decide)).1,
   (claim_C9 1 [cu1, cu2] [cu2, cu1] book1 (List.Perm.swap cu2 cu1 [])
      (by decide) (by unfold SortedSide; decide)
      (by unfold SortedSide; decide)).2.1⟩

end Spider
